import Mathlib

/-!
Verification development for the bandcamp-discogs-sync matching subsystem.

The definitions below are shallow embeddings, translated from the
TypeScript sources:
  * `src/lib/matching/formats.ts` (format maps, `getFormatBonus`, and the
    matching engine `./engine`: `normalizeString`,
    `calculateLevenshteinDistance`, `calculateStringSimilarity`,
    `calculateTokenSimilarity`, `calculateMatchConfidence`, `matchAlbum`),
  * `src/lib/matching/utils.ts` (`extractEditionInfo`,
    `calculateEditionAwareSimilarity`),
  * `src/lib/matching/engine-v2.ts` (the v2 engine),
  * the safety wrapper `safe-engine.ts` (circuit breaker, validation,
    truncation, `matchAlbumSafe`, `matchAlbumBatch`).

Modelling conventions:
  * JS strings are modelled as `List Char`; the handful of Unicode-aware
    operations (`toLowerCase`, NFD decomposition) are modelled by explicit
    tables covering the Latin repertoire the code manipulates, and are the
    identity elsewhere.
  * JS numbers are modelled as exact integers/rationals; `Math.round` is
    round-half-up (`⌊x + 1/2⌋`), which agrees with JS on every value
    produced here.  All divisions are carried out exactly via
    `(2*num + den) / (2*den)`.
  * JS `Map` is modelled as an insertion-ordered association list.
  * `Array.prototype.sort` (ES2019: stable) is modelled by the stable
    `List.insertionSort` with `r a b := comparator a b ≤ 0`: for a
    consistent comparator (a total preorder, as both comparators here are)
    the output of a stable sort is uniquely determined, so any stable sort
    is extensionally the engine's.
  * Recursions that consume more than one character per step take an
    explicit fuel argument (initialised to the string length, an upper
    bound on the number of steps) so that every definition is structurally
    recursive and kernel-reducible.
-/

namespace BCDC

/-- JS strings, modelled as lists of characters. -/
abbrev Str := List Char

/-- Membership in the JS regex character class `\s` (the whitespace
characters that actually occur in this code's data): space, tab, LF, CR,
VT, FF, NBSP, BOM. -/
def isJsWs (c : Char) : Bool :=
  c.toNat = 32 || c.toNat = 9 || c.toNat = 10 || c.toNat = 13 ||
  c.toNat = 0x0b || c.toNat = 0x0c || c.toNat = 0xa0 || c.toNat = 0xfeff

/-- Membership in the JS regex character class `\w`, i.e. `[A-Za-z0-9_]`. -/
def isWordChar (c : Char) : Bool :=
  (97 ≤ c.toNat && c.toNat ≤ 122) || (65 ≤ c.toNat && c.toNat ≤ 90) ||
  (48 ≤ c.toNat && c.toNat ≤ 57) || c.toNat = 95

/-- Combining diacritical marks `U+0300`–`U+036F`, the range removed by
`.replace(/[̀-ͯ]/g, '')`. -/
def isCombiningMark (c : Char) : Bool :=
  0x300 ≤ c.toNat && c.toNat ≤ 0x36f

/-- `String.prototype.trim`. -/
def jsTrim (s : Str) : Str :=
  ((s.dropWhile isJsWs).reverse.dropWhile isJsWs).reverse

theorem length_dropWhile_le (p : Char → Bool) (s : Str) :
    (s.dropWhile p).length ≤ s.length := by
  induction s with
  | nil => simp [List.dropWhile]
  | cons c cs ih =>
    by_cases h : p c <;> simp [List.dropWhile, h] <;> omega

/-- `.replace(/\s+/g, ' ')`: every maximal run of whitespace becomes a
single space.  `prevWs` records whether the previous character was
whitespace (i.e. whether we are inside a run already emitted). -/
def collapseWsGo (prevWs : Bool) : Str → Str
  | [] => []
  | c :: cs =>
    if isJsWs c then
      if prevWs then collapseWsGo true cs else ' ' :: collapseWsGo true cs
    else c :: collapseWsGo false cs

def collapseWs (s : Str) : Str := collapseWsGo false s

/-- If `pat` is a prefix of `s`, return the remainder of `s` after it. -/
def prefixRemainder : Str → Str → Option Str
  | [], s => some s
  | _ :: _, [] => none
  | p :: ps, c :: cs => if p = c then prefixRemainder ps cs else none

theorem prefixRemainder_length {pat s r : Str}
    (h : prefixRemainder pat s = some r) : r.length + pat.length = s.length := by
  induction pat generalizing s r with
  | nil => cases s <;> simp_all [prefixRemainder]
  | cons p ps ih =>
    cases s with
    | nil => simp [prefixRemainder] at h
    | cons c cs =>
      by_cases hc : p = c
      · simp only [prefixRemainder, hc, if_pos rfl] at h
        have := ih h; simp; omega
      · simp [prefixRemainder, hc] at h

/-- The `\b` condition to the right of a match whose last character is a
word character: the next character is absent or a non-word character. -/
def boundaryAfter : Str → Bool
  | [] => true
  | d :: _ => !isWordChar d

/-- One global pass of `.replace(new RegExp(`\b${pat}\b`, 'g'), rep)` for a
literal pattern consisting of word characters (the Roman-numeral table).
`prev` records whether the character before the current position is a word
character; matching continues after each replacement, as JS `replace` with
the `g` flag does. -/
def replaceWordGo (p0 : Char) (ps rep : Str) : Nat → Bool → Str → Str
  | _, _, [] => []
  | 0, _, s => s  -- fuel exhausted; unreachable from `replaceWordAll`
  | fuel + 1, prev, c :: cs =>
    match prefixRemainder (p0 :: ps) (c :: cs) with
    | some rest =>
      if !prev && boundaryAfter rest then
        rep ++ replaceWordGo p0 ps rep fuel (isWordChar (ps.getLastD p0)) rest
      else
        c :: replaceWordGo p0 ps rep fuel (isWordChar c) cs
    | none => c :: replaceWordGo p0 ps rep fuel (isWordChar c) cs

/-- `.replace(new RegExp(`\b${pat}\b`, 'g'), rep)` for a literal
word-character pattern. -/
def replaceWordAll (pat rep s : Str) : Str :=
  match pat with
  | [] => s
  | p0 :: ps => replaceWordGo p0 ps rep s.length false s

/-- `String.prototype.toLowerCase`, modelled on ASCII, the Latin-1
supplement and the Latin Extended-A letters this code manipulates. -/
def jsToLower (c : Char) : Char :=
  if 65 ≤ c.toNat && c.toNat ≤ 90 then Char.ofNat (c.toNat + 32)
  else if 0xc0 ≤ c.toNat && c.toNat ≤ 0xde && c.toNat ≠ 0xd7 then
    Char.ofNat (c.toNat + 32)
  else if c = Char.ofNat 0x152 then Char.ofNat 0x153  -- Œ → œ
  else if c = Char.ofNat 0x141 then Char.ofNat 0x142  -- Ł → ł
  else if c = Char.ofNat 0x110 then Char.ofNat 0x111  -- Đ → đ
  else if c = Char.ofNat 0x160 then Char.ofNat 0x161  -- Š → š
  else if c = Char.ofNat 0x17d then Char.ofNat 0x17e  -- Ž → ž
  else c

/-- `String.prototype.normalize('NFD')` restricted to the precomposed
Latin letters relevant here; all other characters are left alone. -/
def nfdChar (c : Char) : Str :=
  let mk2 (b : Char) (m : Nat) : Str := [b, Char.ofNat m]
  if c.toNat ≤ 0x7f then [c] else  -- ASCII has no decomposition
  if c = Char.ofNat 0xe0 then mk2 'a' 0x300 else  -- à
  if c = Char.ofNat 0xe1 then mk2 'a' 0x301 else  -- á
  if c = Char.ofNat 0xe2 then mk2 'a' 0x302 else  -- â
  if c = Char.ofNat 0xe3 then mk2 'a' 0x303 else  -- ã
  if c = Char.ofNat 0xe4 then mk2 'a' 0x308 else  -- ä
  if c = Char.ofNat 0xe5 then mk2 'a' 0x30a else  -- å
  if c = Char.ofNat 0xe7 then mk2 'c' 0x327 else  -- ç
  if c = Char.ofNat 0xe8 then mk2 'e' 0x300 else  -- è
  if c = Char.ofNat 0xe9 then mk2 'e' 0x301 else  -- é
  if c = Char.ofNat 0xea then mk2 'e' 0x302 else  -- ê
  if c = Char.ofNat 0xeb then mk2 'e' 0x308 else  -- ë
  if c = Char.ofNat 0xec then mk2 'i' 0x300 else  -- ì
  if c = Char.ofNat 0xed then mk2 'i' 0x301 else  -- í
  if c = Char.ofNat 0xee then mk2 'i' 0x302 else  -- î
  if c = Char.ofNat 0xef then mk2 'i' 0x308 else  -- ï
  if c = Char.ofNat 0xf1 then mk2 'n' 0x303 else  -- ñ
  if c = Char.ofNat 0xf2 then mk2 'o' 0x300 else  -- ò
  if c = Char.ofNat 0xf3 then mk2 'o' 0x301 else  -- ó
  if c = Char.ofNat 0xf4 then mk2 'o' 0x302 else  -- ô
  if c = Char.ofNat 0xf5 then mk2 'o' 0x303 else  -- õ
  if c = Char.ofNat 0xf6 then mk2 'o' 0x308 else  -- ö
  if c = Char.ofNat 0xf9 then mk2 'u' 0x300 else  -- ù
  if c = Char.ofNat 0xfa then mk2 'u' 0x301 else  -- ú
  if c = Char.ofNat 0xfb then mk2 'u' 0x302 else  -- û
  if c = Char.ofNat 0xfc then mk2 'u' 0x308 else  -- ü
  if c = Char.ofNat 0xfd then mk2 'y' 0x301 else  -- ý
  if c = Char.ofNat 0xff then mk2 'y' 0x308 else  -- ÿ
  if c = Char.ofNat 0x161 then mk2 's' 0x30c else  -- š
  if c = Char.ofNat 0x17e then mk2 'z' 0x30c else  -- ž
  [c]

/-- A single-character-to-string global replacement
(`.replace(/x/g, 'y')` for a one-character pattern). -/
def charReplace (from_ : Char) (to_ : Str) (s : Str) : Str :=
  s.flatMap (fun c => if c = from_ then to_ else [c])

/-- Case-insensitive match of the literal word `w` (given in lowercase) at
the head of `s`, as the regex prefix `w` under the `i` flag. -/
def ciWordRemainder : Str → Str → Option Str
  | [], s => some s
  | _ :: _, [] => none
  | w :: ws, c :: cs => if jsToLower c = w then ciWordRemainder ws cs else none

theorem ciWordRemainder_length {w s r : Str}
    (h : ciWordRemainder w s = some r) : r.length + w.length = s.length := by
  induction w generalizing s r with
  | nil => cases s <;> simp_all [ciWordRemainder]
  | cons p ps ih =>
    cases s with
    | nil => simp [ciWordRemainder] at h
    | cons c cs =>
      by_cases hc : jsToLower c = p
      · simp only [ciWordRemainder, hc, if_pos rfl] at h
        have := ih h; simp; omega
      · simp [ciWordRemainder, hc] at h

/-- Try to match the regex `w\.?\s` (case-insensitively) at the head of
`s`; on success return the remainder after the consumed characters.  The
optional dot backtracks exactly as in the regex engine. -/
def abbrevMatch (w : Str) (s : Str) : Option Str :=
  match ciWordRemainder w s with
  | none => none
  | some [] => none
  | some (d :: rest) =>
    if d = '.' then
      -- the dot was consumed; `\s` must match the next character
      match rest with
      | e :: rest' => if isJsWs e then some rest' else none
      | [] => none
    else
      -- no dot: `\s` must match here ('.' itself is not whitespace, so
      -- the regex's backtracking never succeeds in the other branch)
      if isJsWs d then some rest else none

theorem abbrevMatch_length {w s r : Str}
    (h : abbrevMatch w s = some r) : r.length < s.length := by
  unfold abbrevMatch at h
  cases hcw : ciWordRemainder w s with
  | none => simp [hcw] at h
  | some rest0 =>
    have hlen := ciWordRemainder_length hcw
    simp only [hcw] at h
    match rest0, hlen with
    | [], hlen => simp at h
    | d :: rest, hlen =>
      by_cases hdot : d = '.'
      · subst hdot
        simp only [if_pos rfl] at h
        match rest, hlen with
        | [], _ => simp at h
        | e :: rest', hlen =>
          by_cases he : isJsWs e
          · simp only [he, if_pos] at h; cases h; simp at hlen ⊢; omega
          · simp [he] at h
      · simp only [hdot, if_neg, if_false] at h
        by_cases hd : isJsWs d
        · simp only [hd, if_pos] at h; cases h; simp at hlen ⊢; omega
        · simp [hd] at h

/-- One global pass of `.replace(/\bw\.?\s/gi, repl)`; `repl` is the full
replacement text (it carries its own trailing space).  `prev` records
whether the previous character is a word character, for the leading `\b`. -/
def abbrevGo (w repl : Str) : Nat → Bool → Str → Str
  | _, _, [] => []
  | 0, _, s => s  -- fuel exhausted; unreachable from `replaceAbbrev`
  | fuel + 1, prev, c :: cs =>
    match abbrevMatch w (c :: cs) with
    | some rest =>
      if !prev then repl ++ abbrevGo w repl fuel false rest
      else c :: abbrevGo w repl fuel (isWordChar c) cs
    | none => c :: abbrevGo w repl fuel (isWordChar c) cs

/-- `.replace(/\bw\.?\s/gi, repl)`. -/
def replaceAbbrev (w repl s : Str) : Str := abbrevGo w repl s.length false s

/-- The abbreviation-expansion block of the engine's `normalizeString`:
```
.replace(/\bfeat\.?\s/gi, 'featuring ').replace(/&/g, ' and ')
.replace(/\bvol\.?\s/gi, 'volume ').replace(/\bpt\.?\s/gi, 'part ')
.replace(/\bep\.?\s/gi, 'ep ')
``` -/
def engineExpandAbbreviations (s : Str) : Str :=
  let s := replaceAbbrev ("feat").data ("featuring ").data s
  let s := charReplace '&' (" and ").data s
  let s := replaceAbbrev ("vol").data ("volume ").data s
  let s := replaceAbbrev ("pt").data ("part ").data s
  let s := replaceAbbrev ("ep").data ("ep ").data s
  s

/-- Try the regex prefix `w\s+` (case-insensitive) at the head of `s`:
the word, then at least one whitespace character, greedily consumed. -/
def articleRemainder (w : Str) (s : Str) : Option Str :=
  match ciWordRemainder w s with
  | none => none
  | some rest =>
    match rest with
    | d :: rest' => if isJsWs d then some (rest'.dropWhile isJsWs) else none
    | [] => none

/-- `.replace(/^(the|a|an)\s+/i, '')`: the alternatives are tried in the
regex's order. -/
def stripLeadingArticle (s : Str) : Str :=
  match articleRemainder ("the").data s with
  | some r => r
  | none =>
    match articleRemainder ("a").data s with
    | some r => r
    | none =>
      match articleRemainder ("an").data s with
      | some r => r
      | none => s

/-- `StringNormalizationOptions` (src/lib/matching/types.ts): three
optional booleans.  `none` models an absent field. -/
structure NormOptions where
  removeArticles : Option Bool := none
  expandAbbreviations : Option Bool := none
  normalizeSpecialChars : Option Bool := none
deriving DecidableEq

/-- The Roman-numeral table of the engine's `normalizeString`, in its
insertion (iteration) order. -/
def romanPairs : List (Str × Str) :=
  [(("XX").data, ("20").data), (("XIX").data, ("19").data),
   (("XVIII").data, ("18").data), (("XVII").data, ("17").data),
   (("XVI").data, ("16").data), (("XV").data, ("15").data),
   (("XIV").data, ("14").data), (("XIII").data, ("13").data),
   (("XII").data, ("12").data), (("XI").data, ("11").data),
   (("X").data, ("10").data), (("IX").data, ("9").data),
   (("VIII").data, ("8").data), (("VII").data, ("7").data),
   (("VI").data, ("6").data), (("V").data, ("5").data),
   (("IV").data, ("4").data), (("III").data, ("3").data),
   (("II").data, ("2").data), (("I").data, ("1").data)]

/-- The quote/dash/ellipsis normalisation block shared by both engines:
```
.replace(/[‘’]/g, "'").replace(/[“”]/g, '"').replace(/[–—]/g, '-')
.replace(/…/g, '...').replace(/\s+/g, ' ')
``` -/
def normalizeQuotesDashes (s : Str) : Str :=
  let s := s.map (fun c =>
    if c = Char.ofNat 0x2018 || c = Char.ofNat 0x2019 then '\'' else c)
  let s := s.map (fun c =>
    if c = Char.ofNat 0x201c || c = Char.ofNat 0x201d then '"' else c)
  let s := s.map (fun c =>
    if c = Char.ofNat 0x2013 || c = Char.ofNat 0x2014 then '-' else c)
  let s := charReplace (Char.ofNat 0x2026) ("...").data s
  collapseWs s

/-- NFD decomposition followed by stripping of combining marks, as in
`.normalize('NFD').replace(/[̀-ͯ]/g, '')`. -/
def nfdStrip (s : Str) : Str :=
  (s.flatMap nfdChar).filter (fun c => !isCombiningMark c)

/-- `Math.round(num/den)` for exact integers, `den > 0`: JS rounds
half-up towards `+∞`, i.e. `⌊x + 1/2⌋`. -/
def jsRoundInt (num den : Int) : Int := Int.fdiv (2 * num + den) (2 * den)

/-- `Math.round(num/den)` for naturals, `den > 0`. -/
def jsRoundNat (num den : Nat) : Nat := (2 * num + den) / (2 * den)

/-- `String.prototype.split` with a non-empty literal separator:
left-to-right, non-overlapping. -/
def splitSubGo (q0 : Char) (qs : Str) : Nat → Str → Str → List Str
  | _, cur, [] => [cur.reverse]
  | 0, cur, s => [cur.reverse ++ s]  -- fuel exhausted; unreachable
  | fuel + 1, cur, c :: cs =>
    match prefixRemainder (q0 :: qs) (c :: cs) with
    | some rest => cur.reverse :: splitSubGo q0 qs fuel [] rest
    | none => splitSubGo q0 qs fuel (c :: cur) cs

/-- `s.split(sep)` for a literal separator. -/
def splitSub (sep : Str) (s : Str) : List Str :=
  match sep with
  | [] => [s]
  | q0 :: qs => splitSubGo q0 qs s.length [] s

/-- `arr.join(sep)`. -/
def joinSub (sep : Str) (parts : List Str) : Str := List.intercalate sep parts

/-- `String.prototype.includes`. -/
def jsIncludes (s sub : Str) : Bool :=
  (List.range (s.length + 1)).any (fun i => sub.isPrefixOf (s.drop i))

namespace Engine

/-- `normalizeString` from the matching engine
(src/lib/matching/formats.ts concatenation, lines 104–189), as a pure
function of the input text and options; the memoisation cache is modelled
separately (`normalizeStringCached`) and proven not to change the result. -/
def normalizeString (s : Str) (o : NormOptions := {}) : Str :=
  -- if (!str) return ''
  if s = [] then [] else
  let n := jsTrim s
  -- Roman numerals, longest first, at word boundaries (before lowercasing)
  let n := romanPairs.foldl (fun acc pr => replaceWordAll pr.1 pr.2 acc) n
  let n := n.map jsToLower
  -- NFD + diacritic strip + ligature substitutions ø → o, æ → ae, œ → oe
  let n := nfdStrip n
  let n := charReplace (Char.ofNat 0xf8) ("o").data n
  let n := charReplace (Char.ofNat 0xe6) ("ae").data n
  let n := charReplace (Char.ofNat 0x153) ("oe").data n
  let n := normalizeQuotesDashes n
  -- if (options.expandAbbreviations !== false)
  let n := if o.expandAbbreviations ≠ some false then engineExpandAbbreviations n else n
  -- .replace(/[^\w\s-]/g, '')
  let n := n.filter (fun c => isWordChar c || isJsWs c || c = '-')
  -- .replace(/-/g, '')
  let n := n.filter (fun c => c ≠ '-')
  -- if (options.removeArticles !== false)
  let n := if o.removeArticles ≠ some false then stripLeadingArticle n else n
  jsTrim (collapseWs n)

end Engine

/-! ### Data model (src/types, src/lib/matching/types.ts) -/

/-- One entry of a `DiscogsRelease`'s `formats` array; only `name` is ever
read by the matching code (`qty`/`descriptions` are never consulted). -/
structure FormatDesc where
  name : Str
deriving DecidableEq

/-- `DiscogsRelease`, restricted to the fields the matching subsystem
reads.  `id = 0` models a falsy id, empty strings model falsy strings. -/
structure DiscogsRelease where
  id : Int
  title : Str
  artists_sort : Str
  year : Option Int := none
  formats : Option (List FormatDesc) := none
deriving DecidableEq

/-- `BandcampPurchase`, restricted to the fields the matching subsystem
reads; `purchaseYear` models `purchaseDate.getFullYear()`. -/
structure Purchase where
  artist : Str
  itemTitle : Str
  format : Str
  purchaseYear : Int := 0
deriving DecidableEq

inductive Strictness | strict | loose | anyFormat
deriving DecidableEq

/-- `MatchingOptions` (plus the `timeout` used by the safe wrapper and the
`concurrency` used by the batch runner); `none` models an absent field. -/
structure MatchingOptions where
  includeAlternatives : Option Bool := none
  maxAlternatives : Option Nat := none
  formatStrictness : Option Strictness := none
  minConfidence : Option Int := none
  timeout : Option Nat := none
  concurrency : Option Nat := none
deriving DecidableEq

/-- `{ ...DEFAULT_OPTIONS, ...options }` with
`DEFAULT_OPTIONS = { includeAlternatives: true, maxAlternatives: 3,
formatStrictness: 'loose', minConfidence: 0 }`. -/
def mergeDefaults (o : MatchingOptions) : MatchingOptions :=
  { includeAlternatives := some (o.includeAlternatives.getD true)
    maxAlternatives := some (o.maxAlternatives.getD 3)
    formatStrictness := some (o.formatStrictness.getD .loose)
    minConfidence := some (o.minConfidence.getD 0)
    timeout := o.timeout
    concurrency := o.concurrency }

inductive MatchType | exact | normalized | fuzzy
deriving DecidableEq

structure Breakdown where
  artistScore : Int
  titleScore : Int
  formatBonus : Int
deriving DecidableEq

structure MatchResult where
  confidence : Int
  release : DiscogsRelease
  matchType : MatchType
  breakdown : Breakdown
deriving DecidableEq

structure SearchQuery where
  artist : Str
  title : Str
  format : Str
deriving DecidableEq

inductive Status | matched | review | noMatch
deriving DecidableEq

structure MatchingResponse where
  bestMatch : Option MatchResult
  alternatives : List MatchResult
  searchQuery : SearchQuery
  status : Status
deriving DecidableEq

/-! ### Format maps (src/lib/matching/formats.ts, lines 4–75) -/

namespace Formats

/-- `discogsFormatMap` / `bandcampToDiscogsFormat` /
`getDiscogsFormatsForBandcamp`: the allow-list of catalog format-name
fragments for each purchase format category (unknown keys give `[]`). -/
def getDiscogsFormatsForBandcamp (bandcampFormat : Str) : List Str :=
  if bandcampFormat = ("Vinyl").data then
    [("LP").data, ("Album").data, ("12\"").data, ("10\"").data, ("7\"").data,
     ("Single").data, ("EP").data, ("Mini-Album").data, ("Maxi-Single").data,
     ("Flexi-disc").data, ("Picture Disc").data, ("Test Pressing").data,
     ("White Label").data, ("Promo").data, ("Reissue").data, ("Repress").data,
     ("Compilation").data]
  else if bandcampFormat = ("CD").data then
    [("CD").data, ("CDr").data, ("CD-ROM").data, ("HDCD").data,
     ("MiniCD").data, ("CD+DVD").data, ("CD+Blu-ray").data, ("Enhanced").data,
     ("Single").data, ("EP").data, ("Album").data, ("Compilation").data,
     ("Box Set").data]
  else if bandcampFormat = ("Cassette").data then
    [("Cassette").data, ("Cass").data, ("Mixtape").data, ("Demo").data,
     ("Promo").data, ("Album").data, ("Single").data, ("EP").data,
     ("Compilation").data]
  else if bandcampFormat = ("Digital").data then
    [("File").data, ("MP3").data, ("FLAC").data, ("WAV").data, ("AIFF").data,
     ("AAC").data, ("OGG").data, ("WMA").data, ("Digital").data,
     ("Download").data, ("Streaming").data]
  else if bandcampFormat = ("Other").data then
    [("DVD").data, ("Blu-ray").data, ("VHS").data, ("Betamax").data,
     ("Laserdisc").data, ("MiniDisc").data, ("8-Track").data,
     ("Reel-To-Reel").data, ("DAT").data, ("DCC").data, ("SACD").data,
     ("DVD-Audio").data]
  else []

/-- `formatMatchesDiscogs`: does the catalog format name contain
(case-insensitively) one of the allowed fragments? -/
def formatMatchesDiscogs (bandcampFormat discogsFormat : Str) : Bool :=
  if bandcampFormat = ("Digital").data then true
  else
    (getDiscogsFormatsForBandcamp bandcampFormat).any (fun fr =>
      jsIncludes (discogsFormat.map jsToLower) (fr.map jsToLower))

/-- `getFormatBonus` (formats.ts, lines 55–75): ±5, with no strictness
parameter. -/
def getFormatBonus (bandcampFormat : Str)
    (discogsFormats : Option (List FormatDesc)) : Int :=
  if bandcampFormat = ("Digital").data then 0
  else
    match discogsFormats with
    | none => 0
    | some fs =>
      if fs.isEmpty then 0
      else if fs.any (fun f => formatMatchesDiscogs bandcampFormat f.name)
      then 5 else -5

end Formats

/-! ### Edition extraction (src/lib/matching/utils.ts) -/

namespace MatchUtils

structure EditionInfo where
  baseTitle : Str
  edition : Option Str
  year : Option Nat
deriving DecidableEq

/-- Leftmost match of `/\(([^)]+)\)$/` against `s ++ ")"`-style input:
given the text before the final `)`, find the first `(` whose suffix is
`)`-free and non-empty; returns (text before the `(`, group content). -/
def findParenContent : Str → Option (Str × Str)
  | [] => none
  | c :: cs =>
    if c = '(' && cs.all (fun d => d ≠ ')') && !cs.isEmpty then some ([], cs)
    else (findParenContent cs).map (fun pr => (c :: pr.1, pr.2))

/-- Same for `/\[([^\]]+)\]$/`. -/
def findBracketContent : Str → Option (Str × Str)
  | [] => none
  | c :: cs =>
    if c = '[' && cs.all (fun d => d ≠ ']') && !cs.isEmpty then some ([], cs)
    else (findBracketContent cs).map (fun pr => (c :: pr.1, pr.2))

/-- Split at the first occurrence of `t`: `some (before, after)`. -/
def spanUntil (t : Char) (s : Str) : Option (Str × Str) :=
  if s.any (fun c => c = t) then
    some (s.takeWhile (fun c => c ≠ t), (s.dropWhile (fun c => c ≠ t)).tail)
  else none

def isDigit (c : Char) : Bool := '0' ≤ c && c ≤ '9'

/-- Does `content` fully match
`\d{4}\s*(?:remaster(?:ed)?|mix|version|edition)` (case-insensitively)?
The alternation is tried in the regex's order; `\s*` is greedy and the
following literals start with non-whitespace, so maximal consumption is
exact. -/
def p3Full (content : Str) : Bool :=
  match content with
  | d1 :: d2 :: d3 :: d4 :: rest =>
    isDigit d1 && isDigit d2 && isDigit d3 && isDigit d4 &&
    (let r := rest.dropWhile isJsWs
     [("remastered").data, ("remaster").data, ("mix").data,
      ("version").data, ("edition").data].any (fun kw =>
        ciWordRemainder kw r = some []))
  | _ => false

/-- The ordered alternatives of `collector'?s?` under greedy backtracking,
followed by the other named-edition keywords in the regex's order. -/
def namedKeywords : List Str :=
  [("deluxe").data, ("special").data, ("limited").data, ("expanded").data,
   ("collector's").data, ("collector'").data, ("collectors").data,
   ("collector").data, ("anniversary").data, ("remastered").data,
   ("remix").data, ("live").data, ("demo").data, ("acoustic").data,
   ("unplugged").data]

/-- The possible remainders after the optional ordinal prefix
`(?:\d+(?:st|nd|rd|th)\s+)?` at the head of `s` (present first, then
absent, matching the regex's greedy order). -/
def ordinalAlts (s : Str) : List Str :=
  let digits := s.takeWhile isDigit
  let rest := s.dropWhile isDigit
  let withOrdinal : List Str :=
    if digits.isEmpty then []
    else
      match [("st").data, ("nd").data, ("rd").data, ("th").data].findSome?
          (fun suf => ciWordRemainder suf rest) with
      | some r =>
        if r.takeWhile isJsWs ≠ [] then [r.dropWhile isJsWs] else []
      | none => []
  withOrdinal ++ [s]

/-- The possible remainders after the optional `(?:anniversary\s+)?`. -/
def anniversaryAlts (s : Str) : List Str :=
  (match ciWordRemainder ("anniversary").data s with
   | some r => if r.takeWhile isJsWs ≠ [] then [r.dropWhile isJsWs] else []
   | none => []) ++ [s]

/-- Does `content` fully match the named-edition group
`(?:\d+(?:st|nd|rd|th)\s+)?(?:anniversary\s+)?(?:deluxe|special|limited|
expanded|collector'?s?|anniversary|remastered|remix|live|demo|acoustic|
unplugged)\s*(?:edition|version|release)?` (case-insensitively)? -/
def namedEditionFull (content : Str) : Bool :=
  (ordinalAlts content).any (fun r1 =>
    (anniversaryAlts r1).any (fun r2 =>
      (namedKeywords.filterMap (fun kw => ciWordRemainder kw r2)).any
        (fun r3 =>
          let r4 := r3.dropWhile isJsWs
          r4 = [] ||
          [("edition").data, ("version").data, ("release").data].any
            (fun kw => ciWordRemainder kw r4 = some []))))

/-- Leftmost occurrence of `\(GROUP\)` where the group (which can never
contain `)`) must match the parenthesised content in full; returns
(before, content, after). -/
def findParenFull (test : Str → Bool) : Str → Option (Str × Str × Str)
  | [] => none
  | c :: cs =>
    if c = '(' then
      match spanUntil ')' cs with
      | some (content, rest) =>
        if test content then some ([], content, rest)
        else (findParenFull test cs).map (fun t => (c :: t.1, t.2.1, t.2.2))
      | none => (findParenFull test cs).map (fun t => (c :: t.1, t.2.1, t.2.2))
    else (findParenFull test cs).map (fun t => (c :: t.1, t.2.1, t.2.2))

/-- Leftmost match of `/\s+-\s+(NAMED)$/i`: returns
(text before the match, the group). -/
def findDashEdition : Str → Option (Str × Str)
  | [] => none
  | c :: cs =>
    (if isJsWs c then
      let afterWs := (c :: cs).dropWhile isJsWs
      match afterWs with
      | '-' :: r2 =>
        if r2.takeWhile isJsWs ≠ [] then
          let r3 := r2.dropWhile isJsWs
          if namedEditionFull r3 then some ([], r3) else none
        else none
      | _ => none
    else none).orElse
      (fun _ => (findDashEdition cs).map (fun pr => (c :: pr.1, pr.2)))

/-- First occurrence of `/(\d{4})/` in `s`. -/
def findYear : Str → Option Nat
  | [] => none
  | c :: cs =>
    match cs with
    | d2 :: d3 :: d4 :: _ =>
      if isDigit c && isDigit d2 && isDigit d3 && isDigit d4 then
        some ((c.toNat - '0'.toNat) * 1000 + (d2.toNat - '0'.toNat) * 100 +
              (d3.toNat - '0'.toNat) * 10 + (d4.toNat - '0'.toNat))
      else findYear cs
    | _ => none

/-- The trailing-junk cleanup `.replace(/[\s\-,]+$/, '')` applied to the
base title. -/
def stripTrailingJunk (s : Str) : Str :=
  (s.reverse.dropWhile (fun c => isJsWs c || c = '-' || c = ',')).reverse

/-- `extractEditionInfo` (utils.ts): the ordered pattern categories;
the first matching category wins. -/
def extractEditionInfo (title : Str) : EditionInfo :=
  -- the five pattern categories, in source order
  let a1 : Option (Str × Str) :=          -- /\(([^)]+)\)$/
    match title.getLast? with
    | some ')' => findParenContent (title.dropLast)
    | _ => none
  let a2 : Option (Str × Str) :=          -- /\[([^\]]+)\]$/
    match title.getLast? with
    | some ']' => findBracketContent (title.dropLast)
    | _ => none
  let a3 : Option (Str × Str) :=          -- year-qualified parenthetical
    (findParenFull p3Full title).map (fun t => (t.1 ++ t.2.2, t.2.1))
  let a4 : Option (Str × Str) :=          -- named-edition parenthetical
    (findParenFull namedEditionFull title).map (fun t => (t.1 ++ t.2.2, t.2.1))
  let a5 : Option (Str × Str) := findDashEdition title
  let attempt : Option (Str × Str) :=
    a1.orElse (fun _ => a2.orElse (fun _ =>
      a3.orElse (fun _ => a4.orElse (fun _ => a5))))
  let base0 := match attempt with
    | some (remaining, _) => jsTrim remaining
    | none => title
  let edition := attempt.map (fun pr => jsTrim pr.2)
  let year := match edition with
    | some e => findYear e
    | none => none
  { baseTitle := jsTrim (stripTrailingJunk (collapseWs base0))
    edition := edition
    year := year }

/-- A JS-truthy edition marker: present and non-empty. -/
def hasEdition (i : EditionInfo) : Bool :=
  match i.edition with
  | some e => !e.isEmpty
  | none => false

/-- `calculateEditionAwareSimilarity` (utils.ts). -/
def calculateEditionAwareSimilarity (title1 title2 : Str)
    (calculateBaseSimilarity : Str → Str → Int) : Int :=
  let info1 := extractEditionInfo title1
  let info2 := extractEditionInfo title2
  let baseSimilarity := calculateBaseSimilarity info1.baseTitle info2.baseTitle
  let editionBonus : Int :=
    if hasEdition info1 && hasEdition info2 then
      jsRoundInt (calculateBaseSimilarity (info1.edition.getD [])
        (info2.edition.getD [])) 10
    else if !hasEdition info1 && !hasEdition info2 then 5
    else -2
  baseSimilarity + editionBonus

end MatchUtils

/-! ### The matching engine (`./engine`, concatenated into
src/lib/matching/formats.ts, lines 75–434) -/

namespace Engine

/-- One inner iteration of the engine's full-matrix Levenshtein loop:
given the previous row starting at the diagonal entry and the value to the
left, produce the rest of the current row.  The `matrix[i-1][j]` entry is
the head of `rest`. -/
def levGo (bc : Char) : Str → Nat → List Nat → List Nat
  | [], _, _ => []
  | _ :: _, _, [] => []
  | ac :: as', left, diag :: rest =>
    let up := rest.headD 0
    let cur :=
      if bc = ac then diag
      else Nat.min (diag + 1) (Nat.min (left + 1) (up + 1))
    cur :: levGo bc as' cur rest

/-- The outer loop over the characters of `b`, carrying the current row. -/
def levRows (a : Str) : Str → Nat → List Nat → List Nat
  | [], _, row => row
  | bc :: bs, i, row => levRows a bs (i + 1) ((i + 1) :: levGo bc a (i + 1) row)

/-- `calculateLevenshteinDistance` (engine): classic full-matrix DP;
the result is `matrix[b.length][a.length]`. -/
def calculateLevenshteinDistance (a b : Str) : Nat :=
  (levRows a b 0 (List.range (a.length + 1))).getLastD 0

/-- `calculateStringSimilarity` (engine). -/
def calculateStringSimilarity (a b : Str) : Int :=
  if a = b then 100
  else
    let normalizedA := normalizeString a
    let normalizedB := normalizeString b
    if normalizedA = normalizedB then 98
    else
      let distance := calculateLevenshteinDistance normalizedA normalizedB
      let maxLength := Nat.max normalizedA.length normalizedB.length
      if maxLength = 0 then 100
      else max 0 (jsRoundInt (100 * ((maxLength : Int) - distance)) maxLength)

/-- `.split(' ').filter(t => t.length > 0)` over normalized text. -/
def tokenize (s : Str) : List Str :=
  (splitSub [' '] s).filter (fun t => t.length > 0)

/-- Build a JS `Map` of token frequencies (insertion-ordered association
list). -/
def bumpFreq (m : List (Str × Nat)) (t : Str) : List (Str × Nat) :=
  match m with
  | [] => [(t, 1)]
  | (k, v) :: rest => if k = t then (k, v + 1) :: rest else (k, v) :: bumpFreq rest t

def buildFreq (ts : List Str) : List (Str × Nat) := ts.foldl bumpFreq []

/-- `Map.prototype.get` on an association list. -/
def mapGet {α : Type} (m : List (Str × α)) (k : Str) : Option α :=
  match m with
  | [] => none
  | (k0, v) :: rest => if k0 = k then some v else mapGet rest k

/-- `freq.get(token) || 0`. -/
def lookupFreq (m : List (Str × Nat)) (t : Str) : Nat := (mapGet m t).getD 0

/-- `calculateTokenSimilarity` (engine): multiset overlap divided by the
number of **distinct** tokens of the union (the code's
`new Set([...tokensA, ...tokensB]).size`). -/
def calculateTokenSimilarity (a b : Str) : Int :=
  let tokensA := tokenize (normalizeString a)
  let tokensB := tokenize (normalizeString b)
  if tokensA.isEmpty || tokensB.isEmpty then 0
  else
    let freqA := buildFreq tokensA
    let freqB := buildFreq tokensB
    let matchCount :=
      freqA.foldl (fun acc kv => acc + Nat.min kv.2 (lookupFreq freqB kv.1)) 0
    let totalUnique := (tokensA ++ tokensB).dedup.length
    if totalUnique > 0 then (jsRoundNat (100 * matchCount) totalUnique : Int)
    else 0

/-- `calculateMatchConfidence` (engine), including the artist/title
extraction from `"Artist - Album"`-shaped Discogs titles. -/
def calculateMatchConfidence (bandcampPurchase : Purchase)
    (discogsRelease : DiscogsRelease) (options : MatchingOptions := {}) :
    MatchResult :=
  let discogsArtist :=
    if discogsRelease.artists_sort.isEmpty && !discogsRelease.title.isEmpty
    then
      let titleParts := splitSub (" - ").data discogsRelease.title
      if titleParts.length ≥ 2 then jsTrim (titleParts.headD []) else []
    else discogsRelease.artists_sort
  let artistSimilarity :=
    max (calculateStringSimilarity bandcampPurchase.artist discogsArtist)
        (calculateTokenSimilarity bandcampPurchase.artist discogsArtist)
  let discogsTitle :=
    if !discogsRelease.title.isEmpty &&
        jsIncludes discogsRelease.title (" - ").data then
      let titleParts := splitSub (" - ").data discogsRelease.title
      if titleParts.length ≥ 2 then
        jsTrim (joinSub (" - ").data titleParts.tail)
      else discogsRelease.title
    else discogsRelease.title
  let titleSimilarity :=
    max (max (calculateStringSimilarity bandcampPurchase.itemTitle discogsTitle)
             (calculateTokenSimilarity bandcampPurchase.itemTitle discogsTitle))
        (MatchUtils.calculateEditionAwareSimilarity bandcampPurchase.itemTitle
          discogsTitle calculateStringSimilarity)
  -- baseScore = artist*0.6 + title*0.4, carried exactly with denominator 10
  let formatBonus : Int :=
    if options.formatStrictness = some .anyFormat then 0
    else Formats.getFormatBonus bandcampPurchase.format discogsRelease.formats
  let confidence :=
    min 100 (max 0
      (jsRoundInt (artistSimilarity * 6 + titleSimilarity * 4 + formatBonus * 10)
        10))
  let matchType : MatchType :=
    if bandcampPurchase.artist = discogsArtist &&
        bandcampPurchase.itemTitle = discogsTitle then .exact
    else if artistSimilarity ≥ 98 && titleSimilarity ≥ 98 then .normalized
    else .fuzzy
  { confidence := confidence
    release := discogsRelease
    matchType := matchType
    breakdown :=
      { artistScore := artistSimilarity
        titleScore := titleSimilarity
        formatBonus := formatBonus } }

/-- `matchAlbum` (engine): score, filter by `minConfidence`, sort by
confidence descending (a stable sort, as ES2019 requires), pick the best
and the alternatives, derive the status. -/
def matchAlbum (bandcampPurchase : Purchase)
    (discogsReleases : List DiscogsRelease)
    (options : MatchingOptions := {}) : MatchingResponse :=
  let mergedOptions := mergeDefaults options
  let matchList :=  -- `matches` in the source; renamed (Lean keyword)
    (((discogsReleases.map
        (fun r => calculateMatchConfidence bandcampPurchase r mergedOptions))
      |>.filter (fun m => m.confidence ≥ mergedOptions.minConfidence.getD 0))
      |>.insertionSort (fun a b => b.confidence ≤ a.confidence))
  let bestMatch := matchList.head?
  let alternatives :=
    if mergedOptions.includeAlternatives.getD true then
      (matchList.drop 1).take (mergedOptions.maxAlternatives.getD 3)
    else []
  let status : Status :=
    match bestMatch with
    | none => .noMatch
    | some b =>
      if b.confidence < 70 then .noMatch
      else if b.confidence ≥ 95 then .matched
      else .review
  { bestMatch := bestMatch
    alternatives := alternatives
    searchQuery :=
      { artist := bandcampPurchase.artist
        title := bandcampPurchase.itemTitle
        format := bandcampPurchase.format }
    status := status }

end Engine

/-! ### The v2 engine (src/lib/matching/engine-v2.ts) -/

namespace EngineV2

/-- The abbreviation-expansion block of the v2 `normalizeString` (adds
`ft` and `no` to the engine's list). -/
def expandAbbreviationsV2 (s : Str) : Str :=
  let s := replaceAbbrev ("feat").data ("featuring ").data s
  let s := replaceAbbrev ("ft").data ("featuring ").data s
  let s := charReplace '&' (" and ").data s
  let s := replaceAbbrev ("vol").data ("volume ").data s
  let s := replaceAbbrev ("pt").data ("part ").data s
  let s := replaceAbbrev ("ep").data ("ep ").data s
  let s := replaceAbbrev ("no").data ("number ").data s
  s

/-- `normalizeString` (engine-v2.ts, lines 28–92), as a pure function:
lowercase+trim first, no Roman-numeral handling, a larger ligature table,
and hyphens replaced by spaces rather than removed. -/
def normalizeString (s : Str) (o : NormOptions := {}) : Str :=
  let n := jsTrim (s.map jsToLower)
  let n := nfdStrip n
  let n := charReplace (Char.ofNat 0xf8) ("o").data n    -- ø → o
  let n := charReplace (Char.ofNat 0xe6) ("ae").data n   -- æ → ae
  let n := charReplace (Char.ofNat 0x153) ("oe").data n  -- œ → oe
  let n := charReplace (Char.ofNat 0xdf) ("ss").data n   -- ß → ss
  let n := charReplace (Char.ofNat 0xf1) ("n").data n    -- ñ → n
  let n := charReplace (Char.ofNat 0x142) ("l").data n   -- ł → l
  let n := charReplace (Char.ofNat 0x111) ("d").data n   -- đ → d
  let n := normalizeQuotesDashes n
  let n := if o.expandAbbreviations ≠ some false then expandAbbreviationsV2 n else n
  let n := n.filter (fun c => isWordChar c || isJsWs c || c = '-')
  let n := n.map (fun c => if c = '-' then ' ' else c)  -- .replace(/-/g, ' ')
  let n := if o.removeArticles ≠ some false then stripLeadingArticle n else n
  jsTrim (collapseWs n)

/-- One inner iteration of the v2 two-row Levenshtein loop (rows are
indexed by `a`, columns by `b`); `previousRow[j]` is the head of `rest`. -/
def levGoV2 (ac : Char) : Str → Nat → List Nat → List Nat
  | [], _, _ => []
  | _ :: _, _, [] => []
  | bc :: bs, left, diag :: rest =>
    let up := rest.headD 0
    let cost := if ac = bc then 0 else 1
    let cur := Nat.min (up + 1) (Nat.min (left + 1) (diag + cost))
    cur :: levGoV2 ac bs cur rest

def levRowsV2 (b : Str) : Str → Nat → List Nat → List Nat
  | [], _, row => row
  | ac :: as', i, row =>
    levRowsV2 b as' (i + 1) ((i + 1) :: levGoV2 ac b (i + 1) row)

/-- `calculateLevenshteinDistance` (engine-v2.ts): two-row DP with early
exits. -/
def calculateLevenshteinDistance (a b : Str) : Nat :=
  if a = b then 0
  else if a.isEmpty then b.length
  else if b.isEmpty then a.length
  else (levRowsV2 b a 0 (List.range (b.length + 1))).getLastD 0

/-- `calculateStringSimilarity` (engine-v2.ts). -/
def calculateStringSimilarity (a b : Str) : Int :=
  if a = b then 100
  else
    let normalizedA := normalizeString a
    let normalizedB := normalizeString b
    if normalizedA = normalizedB then 98
    else
      let distance := calculateLevenshteinDistance normalizedA normalizedB
      let maxLength := Nat.max normalizedA.length normalizedB.length
      if maxLength = 0 then 100
      else max 0 (jsRoundInt (100 * ((maxLength : Int) - distance)) maxLength)

/-- `calculateTokenSimilarity` (engine-v2.ts, lines 147–178): the total
counts all of `tokensA` but only the `tokensB` tokens **absent** from
`tokensA`. -/
def calculateTokenSimilarity (a b : Str) : Int :=
  let tokensA := Engine.tokenize (normalizeString a)
  let tokensB := Engine.tokenize (normalizeString b)
  if tokensA.isEmpty || tokensB.isEmpty then 0
  else
    let freqA := Engine.buildFreq tokensA
    let freqB := Engine.buildFreq tokensB
    let firstPass :=
      freqA.foldl
        (fun (acc : Nat × Nat) kv =>
          (acc.1 + Nat.min kv.2 (Engine.lookupFreq freqB kv.1), acc.2 + kv.2))
        (0, 0)
    let matchCount := firstPass.1
    let totalTokens :=
      freqB.foldl
        (fun acc kv =>
          if (Engine.mapGet freqA kv.1).isNone then acc + kv.2 else acc)
        firstPass.2
    if totalTokens > 0 then (jsRoundNat (100 * (matchCount * 2)) totalTokens : Int)
    else 0

/-- `getFormatBonus` (engine-v2.ts, lines 180–205): strictness-aware. -/
def getFormatBonus (bandcampFormat : Str)
    (discogsFormats : Option (List FormatDesc))
    (strictness : Strictness := .loose) : Int :=
  if strictness = .anyFormat ||
      discogsFormats.isNone || (discogsFormats.getD []).isEmpty then 0
  else if bandcampFormat = ("Digital").data then 0
  else
    let hasMatch := (discogsFormats.getD []).any
      (fun f => Formats.formatMatchesDiscogs bandcampFormat f.name)
    if strictness = .strict then (if hasMatch then 10 else -10)
    else (if hasMatch then 5 else -2)

/-- `discogsRelease.year || 0`. -/
def yearOrZero (r : DiscogsRelease) : Int := (r.year.getD 0)

/-- `calculateYearBonus` (engine-v2.ts). -/
def calculateYearBonus (bandcampPurchase : Purchase)
    (discogsRelease : DiscogsRelease) : Int :=
  match discogsRelease.year with
  | none => 0
  | some releaseYear =>
    if releaseYear = 0 then 0  -- `if (!discogsRelease.year) return 0`
    else if bandcampPurchase.purchaseYear - releaseYear ≤ 2 then 2
    else if releaseYear > bandcampPurchase.purchaseYear then -5
    else 0

/-- `calculateMatchConfidence` (engine-v2.ts): no artist/title extraction,
no edition-aware similarity, strictness-aware format bonus plus year
bonus. -/
def calculateMatchConfidence (bandcampPurchase : Purchase)
    (discogsRelease : DiscogsRelease) (options : MatchingOptions := {}) :
    MatchResult :=
  let artistSimilarity :=
    max (calculateStringSimilarity bandcampPurchase.artist
          discogsRelease.artists_sort)
        (calculateTokenSimilarity bandcampPurchase.artist
          discogsRelease.artists_sort)
  let titleSimilarity :=
    max (calculateStringSimilarity bandcampPurchase.itemTitle
          discogsRelease.title)
        (calculateTokenSimilarity bandcampPurchase.itemTitle
          discogsRelease.title)
  let formatBonus := getFormatBonus bandcampPurchase.format
    discogsRelease.formats (options.formatStrictness.getD .loose)
  let yearBonus := calculateYearBonus bandcampPurchase discogsRelease
  let confidence :=
    min 100 (max 0
      (jsRoundInt
        (artistSimilarity * 6 + titleSimilarity * 4 +
          (formatBonus + yearBonus) * 10) 10))
  let matchType : MatchType :=
    if bandcampPurchase.artist = discogsRelease.artists_sort &&
        bandcampPurchase.itemTitle = discogsRelease.title then .exact
    else if artistSimilarity ≥ 98 && titleSimilarity ≥ 98 then .normalized
    else .fuzzy
  { confidence := confidence
    release := discogsRelease
    matchType := matchType
    breakdown :=
      { artistScore := artistSimilarity
        titleScore := titleSimilarity
        formatBonus := formatBonus + yearBonus } }

/-- `handleVariousArtists` (engine-v2.ts). -/
def handleVariousArtists (artist : Str) : Str :=
  let normalized := (jsTrim artist).map jsToLower
  if [("various").data, ("various artists").data, ("v.a.").data, ("va").data,
      ("compilation").data, ("various artist").data, ("varios artistas").data,
      ("artisti vari").data, ("verschiedene").data].any
      (fun p => p = normalized)
  then ("Various Artists").data
  else artist

/-- `typeOrder = { exact: 3, normalized: 2, fuzzy: 1 }`. -/
def typeOrder : MatchType → Int
  | .exact => 3
  | .normalized => 2
  | .fuzzy => 1

/-- The v2 sort comparator: confidence descending, then classification
rank descending, then release year descending. -/
def compareV2 (a b : MatchResult) : Int :=
  if b.confidence ≠ a.confidence then b.confidence - a.confidence
  else if a.matchType ≠ b.matchType then
    typeOrder b.matchType - typeOrder a.matchType
  else yearOrZero b.release - yearOrZero a.release

/-- `a` may be placed before `b` (comparator ≤ 0). -/
def leV2 (a b : MatchResult) : Prop := compareV2 a b ≤ 0

instance : DecidableRel leV2 := fun a b => Int.decLe _ _

/-- `matchAlbum` (engine-v2.ts, lines 280–350). -/
def matchAlbum (bandcampPurchase : Purchase)
    (discogsReleases : List DiscogsRelease)
    (options : MatchingOptions := {}) : MatchingResponse :=
  let mergedOptions := mergeDefaults options
  let processedPurchase :=
    { bandcampPurchase with artist := handleVariousArtists bandcampPurchase.artist }
  let matchList :=  -- `matches` in the source; renamed (Lean keyword)
    (((discogsReleases.map
        (fun r => calculateMatchConfidence processedPurchase r mergedOptions))
      |>.filter (fun m => m.confidence ≥ mergedOptions.minConfidence.getD 0))
      |>.insertionSort leV2)
  let bestMatch := matchList.head?
  let alternatives :=
    if mergedOptions.includeAlternatives.getD true then
      (matchList.drop 1).take (mergedOptions.maxAlternatives.getD 3)
    else []
  let status : Status :=
    match bestMatch with
    | none => .noMatch
    | some b =>
      if b.confidence < 70 then .noMatch
      else if b.confidence ≥ 95 then .matched
      else .review
  { bestMatch := bestMatch
    alternatives := alternatives
    searchQuery :=
      { artist := processedPurchase.artist
        title := processedPurchase.itemTitle
        format := processedPurchase.format }
    status := status }

end EngineV2

/-! ### The safety wrapper (safe-engine.ts) -/

namespace SafeEngine

inductive ErrKind
  | invalid_data | runtime_error | timeoutKind | circuit_open
deriving DecidableEq

/-- `MatchError`.  The `requestId` (a fresh UUID attached to every result)
carries no information about matching behaviour and is omitted from the
model. -/
structure MatchError where
  type : ErrKind
  message : Str
  fallback : Option MatchingResponse
deriving DecidableEq

/-- `SafeMatchResult = MatchingResponse | MatchError`. -/
inductive SafeMatchResult
  | ok (response : MatchingResponse)
  | failure (e : MatchError)
deriving DecidableEq

inductive CBStatus | closed | openState | halfOpen
deriving DecidableEq

/-- The module-level `circuitBreaker` record. -/
structure CircuitBreakerState where
  failures : Nat
  lastFailure : Nat
  state : CBStatus
deriving DecidableEq

def CIRCUIT_FAILURE_THRESHOLD : Nat := 5
def CIRCUIT_TIMEOUT : Nat := 60000

/-- `checkCircuitBreaker`: returns whether the call may proceed, together
with the updated breaker (open → half-open once the cool-down has
elapsed).  `now` models `Date.now()`. -/
def checkCircuitBreaker (cb : CircuitBreakerState) (now : Nat) :
    Bool × CircuitBreakerState :=
  if cb.state = .openState then
    if now - cb.lastFailure > CIRCUIT_TIMEOUT then
      (true, { cb with state := .halfOpen, failures := 0 })
    else (false, cb)
  else (true, cb)

/-- `recordSuccess`. -/
def recordSuccess (cb : CircuitBreakerState) : CircuitBreakerState :=
  if cb.state = .halfOpen then { cb with state := .closed, failures := 0 }
  else cb

/-- `recordFailure`. -/
def recordFailure (cb : CircuitBreakerState) (now : Nat) : CircuitBreakerState :=
  let failures := cb.failures + 1
  { failures := failures
    lastFailure := now
    state := if failures ≥ CIRCUIT_FAILURE_THRESHOLD then .openState else cb.state }

/-- The purchase as the wrapper receives it: each required field may be
absent (or, equivalently for the falsy checks, empty). -/
structure RawPurchase where
  artist : Option Str := none
  itemTitle : Option Str := none
  format : Option Str := none
  purchaseYear : Int := 0
deriving DecidableEq

/-- `validatePurchase`: required fields present and truthy, length caps,
format in the fixed enum. -/
def validatePurchase (p : RawPurchase) : Bool :=
  (match p.artist with | some a => !a.isEmpty | none => false) &&
  (match p.itemTitle with | some t => !t.isEmpty | none => false) &&
  (match p.format with | some f => !f.isEmpty | none => false) &&
  (p.artist.getD []).length ≤ 500 &&
  (p.itemTitle.getD []).length ≤ 500 &&
  [("Digital").data, ("Vinyl").data, ("CD").data, ("Cassette").data,
   ("Other").data].any (fun v => v = p.format.getD [])

/-- `validateReleases`: every release has a truthy numeric id and truthy
title and artist strings (an empty list is valid). -/
def validateReleases (rs : List DiscogsRelease) : Bool :=
  rs.all (fun r => r.id ≠ 0 && !r.title.isEmpty && !r.artists_sort.isEmpty)

/-- The validated purchase handed to the engine. -/
def toPurchase (p : RawPurchase) : Purchase :=
  { artist := p.artist.getD []
    itemTitle := p.itemTitle.getD []
    format := p.format.getD []
    purchaseYear := p.purchaseYear }

/-- The `searchQuery` echo used by every fallback
(`purchase?.artist || ''` etc.). -/
def echoQuery (p : RawPurchase) : SearchQuery :=
  { artist := p.artist.getD []
    title := p.itemTitle.getD []
    format := p.format.getD [] }

/-- A fallback `MatchingResponse`: no best match, no alternatives,
status `no-match`. -/
def noMatchFallback (q : SearchQuery) : MatchingResponse :=
  { bestMatch := none, alternatives := [], searchQuery := q, status := .noMatch }

/-- How the raced engine call resolves.  The race of the synchronous,
CPU-bound scorer against a timer and any exception it might throw are
events outside a pure model, so they are inputs here: the call either
completes, throws, or loses the race. -/
inductive Exec
  | completes
  | throwsErr (msg : Str)
  | timesOut
deriving DecidableEq

/-- `options.timeout || 5000`. -/
def effectiveTimeout (o : MatchingOptions) : Nat :=
  match o.timeout with
  | some n => if n = 0 then 5000 else n
  | none => 5000

/-- `matchAlbumSafe` (safe-engine.ts, lines 141–290): circuit breaker,
validation, truncation to 100 candidates, then the raced engine call.
Returns the result, the updated breaker state, and whether the engine was
invoked. -/
def matchAlbumSafe (cb : CircuitBreakerState) (now : Nat)
    (purchase : RawPurchase) (releases : List DiscogsRelease)
    (options : MatchingOptions) (exec : Exec) :
    SafeMatchResult × CircuitBreakerState × Bool :=
  let checked := checkCircuitBreaker cb now
  if !checked.1 then
    (.failure
      { type := .circuit_open
        message := ("Service temporarily unavailable due to high error rate").data
        fallback := none }, checked.2, false)
  else if !validatePurchase purchase then
    (.failure
      { type := .invalid_data
        message := ("Missing or invalid required fields in purchase data").data
        fallback := some (noMatchFallback (echoQuery purchase)) },
     checked.2, false)
  else if !validateReleases releases then
    (.failure
      { type := .invalid_data
        message := ("Invalid Discogs release data").data
        fallback := some (noMatchFallback (echoQuery purchase)) },
     checked.2, false)
  else
    let limitedReleases := releases.take 100
    match exec with
    | .completes =>
      (.ok (Engine.matchAlbum (toPurchase purchase) limitedReleases options),
       recordSuccess checked.2, true)
    | .throwsErr msg =>
      -- caught in the catch block: a generic error has no `.type`
      (.failure
        { type := .runtime_error
          message := if msg.isEmpty
            then ("Unknown error during matching").data else msg
          fallback := some (noMatchFallback (echoQuery purchase)) },
       recordFailure checked.2 now, true)
    | .timesOut =>
      -- the timeout rejection already carries `.type`/`.message`, and its
      -- `fallback` is null; the catch block re-returns it unchanged
      (.failure
        { type := .timeoutKind
          message := ("Matching operation timed out after ").data ++
            (Nat.repr (effectiveTimeout options)).data ++ ("ms").data
          fallback := none },
       recordFailure checked.2 now, true)

/-- `options.concurrency || 3`. -/
def batchConcurrency (o : MatchingOptions) : Nat :=
  match o.concurrency with
  | some n => if n = 0 then 3 else n
  | none => 3

theorem batchConcurrency_pos (o : MatchingOptions) : 0 < batchConcurrency o := by
  unfold batchConcurrency
  cases o.concurrency with
  | none => simp
  | some n => by_cases h : n = 0 <;> simp [h] <;> omega

/-- One batch item: the per-item `try`/`catch` around the candidate fetch
and the safe matcher.  A fetch rejection becomes the item's own
`runtime_error` result, without touching the breaker. -/
def batchItem (cb : CircuitBreakerState) (now : Nat)
    (fetch : RawPurchase → Except Str (List DiscogsRelease))
    (exec : RawPurchase → Exec) (options : MatchingOptions)
    (p : RawPurchase) : SafeMatchResult × CircuitBreakerState :=
  match fetch p with
  | .error msg =>
    (.failure
      { type := .runtime_error
        message := ("Failed to process: ").data ++ msg
        fallback := some (noMatchFallback (echoQuery p)) }, cb)
  | .ok rs =>
    let r := matchAlbumSafe cb now p rs options (exec p)
    (r.1, r.2.1)

/-- `matchAlbumBatch` (safe-engine.ts, lines 330–374): fixed-size chunks;
within a chunk the per-item pipelines are joined by `Promise.all`, whose
results keep the chunk order.  The chunk's items run concurrently on the
single-threaded host: each item's breaker check, engine call and
`recordFailure`/`recordSuccess` execute synchronously between `await`
points, so the host serializes them in some order.  This model fixes
that order to the chunk order — the schedule the event loop produces
when every item's fetch promise is already resolved (each continuation
then runs to completion in creation order).  When no item's matcher
throws, the breaker is never written mid-batch (`recordSuccess` is the
identity on a closed breaker) and the results are the same under every
schedule; the C9 counterexample shows breaker interference between
items that already occurs in this schedule. -/
def matchAlbumBatchGo (now : Nat)
    (fetch : RawPurchase → Except Str (List DiscogsRelease))
    (exec : RawPurchase → Exec) (options : MatchingOptions) :
    Nat → CircuitBreakerState → List RawPurchase →
    List SafeMatchResult × CircuitBreakerState
  | _, cb, [] => ([], cb)
  | 0, cb, _ => ([], cb)  -- fuel exhausted; unreachable from the wrapper
  | fuel + 1, cb, purchases =>
    let c := batchConcurrency options
    let chunk := purchases.take c
    let chunkOut :=
      chunk.foldl
        (fun (acc : List SafeMatchResult × CircuitBreakerState) p =>
          let r := batchItem acc.2 now fetch exec options p
          (acc.1 ++ [r.1], r.2))
        ([], cb)
    let restOut := matchAlbumBatchGo now fetch exec options fuel chunkOut.2
      (purchases.drop c)
    (chunkOut.1 ++ restOut.1, restOut.2)

def matchAlbumBatch (cb : CircuitBreakerState) (now : Nat)
    (purchases : List RawPurchase)
    (fetch : RawPurchase → Except Str (List DiscogsRelease))
    (exec : RawPurchase → Exec) (options : MatchingOptions) :
    List SafeMatchResult × CircuitBreakerState :=
  matchAlbumBatchGo now fetch exec options purchases.length cb purchases

end SafeEngine

/-! ### The normalization cache (engine `normalizeString`, lines 100–189) -/

namespace Cache

/-- `JSON.stringify(options)` for a `StringNormalizationOptions` object
whose fields were assigned in declaration order. -/
def boolLit (b : Bool) : Str := if b then ("true").data else ("false").data

def fieldLit (name : Str) (v : Option Bool) : List Str :=
  match v with
  | none => []
  | some b => [['"'] ++ name ++ ['"', ':'] ++ boolLit b]

def jsonStringifyOpts (o : NormOptions) : Str :=
  '{' ::
    (List.intercalate [',']
      (fieldLit ("removeArticles").data o.removeArticles ++
       fieldLit ("expandAbbreviations").data o.expandAbbreviations ++
       fieldLit ("normalizeSpecialChars").data o.normalizeSpecialChars) ++
     ['}'])

/-- `` `${str}::${JSON.stringify(options)}` ``. -/
def cacheKey (s : Str) (o : NormOptions) : Str :=
  s ++ ':' :: ':' :: jsonStringifyOpts o

/-- The `normalizeCache` JS `Map`: insertion-ordered entries. -/
abbrev NormCache := List (Str × Str)

def CACHE_MAX_SIZE : Nat := 1000

/-- `Map.prototype.set`: update in place if the key exists, else append. -/
def cacheSet (c : NormCache) (k v : Str) : NormCache :=
  match c with
  | [] => [(k, v)]
  | (k0, v0) :: rest =>
    if k0 = k then (k0, v) :: rest else (k0, v0) :: cacheSet rest k v

/-- The engine `normalizeString` as written: consult the cache, else run
the pipeline, evicting the oldest entry on overflow before inserting. -/
def normalizeStringCached (cache : NormCache) (s : Str) (o : NormOptions) :
    Str × NormCache :=
  if s = [] then ([], cache)
  else
    match Engine.mapGet cache (cacheKey s o) with
    | some v => (v, cache)
    | none =>
      let result := Engine.normalizeString s o
      let cache' := if CACHE_MAX_SIZE ≤ cache.length then cache.tail else cache
      (result, cacheSet cache' (cacheKey s o) result)

/-- Run a sequence of calls through the shared cache. -/
def runCached : NormCache → List (Str × NormOptions) → List Str × NormCache
  | c, [] => ([], c)
  | c, (s, o) :: calls =>
    let r := normalizeStringCached c s o
    let rest := runCached r.2 calls
    (r.1 :: rest.1, rest.2)

end Cache

/-! ## Specification predicates -/

/-- The spec's status rule: `matched` iff the best match's confidence is
at least 95, `review` iff it lies in `[70, 95)`, `no-match` iff there is
no best match or its confidence is below 70. -/
def statusSpec (out : MatchingResponse) : Prop :=
  (out.bestMatch = none → out.status = .noMatch) ∧
  ∀ b, out.bestMatch = some b →
    ((95 ≤ b.confidence → out.status = .matched) ∧
     (70 ≤ b.confidence ∧ b.confidence < 95 → out.status = .review) ∧
     (b.confidence < 70 → out.status = .noMatch))

/-! ## Supporting lemmas -/

theorem statusSpec_mk (ml alts : List MatchResult) (q : SearchQuery) :
    statusSpec
      { bestMatch := ml.head?, alternatives := alts, searchQuery := q,
        status :=
          match ml.head? with
          | none => .noMatch
          | some b =>
            if b.confidence < 70 then .noMatch
            else if b.confidence ≥ 95 then .matched
            else .review } := by
  cases h : ml.head? with
  | none =>
    refine ⟨fun _ => by simp [h], fun b hb => ?_⟩
    simp [h] at hb
  | some b =>
    refine ⟨fun hn => by simp [h] at hn, fun b' hb' => ?_⟩
    simp only [h] at hb'
    cases hb'
    refine ⟨fun h95 => ?_, fun h70 => ?_, fun hlt => ?_⟩
    · simp only [h]
      rw [if_neg (by omega), if_pos (by omega)]
    · simp only [h]
      rw [if_neg (by omega), if_neg (by omega)]
    · simp only [h]
      rw [if_pos (by omega)]

theorem engine_matchAlbum_bestMatch (p : Purchase) (rs : List DiscogsRelease)
    (o : MatchingOptions) :
    (Engine.matchAlbum p rs o).bestMatch =
      (((rs.map (fun r => Engine.calculateMatchConfidence p r (mergeDefaults o))).filter
          (fun m => m.confidence ≥ (mergeDefaults o).minConfidence.getD 0)).insertionSort
        (fun a b => b.confidence ≤ a.confidence)).head? := rfl

theorem v2_matchAlbum_bestMatch (p : Purchase) (rs : List DiscogsRelease)
    (o : MatchingOptions) :
    (EngineV2.matchAlbum p rs o).bestMatch =
      (((rs.map (fun r => EngineV2.calculateMatchConfidence
            { p with artist := EngineV2.handleVariousArtists p.artist }
            r (mergeDefaults o))).filter
          (fun m => m.confidence ≥ (mergeDefaults o).minConfidence.getD 0)).insertionSort
        EngineV2.leV2).head? := rfl

/-- The ordering claimed by the spec: `a` may precede `b` iff `a` beats
`b` on confidence, or ties and beats it on classification rank, or ties
on both and has at least `b`'s release year. -/
def rankedBelow (a b : MatchResult) : Prop :=
  b.confidence < a.confidence ∨
  (b.confidence = a.confidence ∧
    (EngineV2.typeOrder b.matchType < EngineV2.typeOrder a.matchType ∨
     (EngineV2.typeOrder b.matchType = EngineV2.typeOrder a.matchType ∧
      EngineV2.yearOrZero b.release ≤ EngineV2.yearOrZero a.release)))

theorem typeOrder_inj {x y : MatchType}
    (h : EngineV2.typeOrder x = EngineV2.typeOrder y) : x = y := by
  cases x <;> cases y <;> first | rfl | (simp [EngineV2.typeOrder] at h)

theorem leV2_iff (a b : MatchResult) : EngineV2.leV2 a b ↔ rankedBelow a b := by
  unfold EngineV2.leV2 EngineV2.compareV2 rankedBelow
  split_ifs with h1 h2
  · omega
  · have hne : EngineV2.typeOrder b.matchType ≠ EngineV2.typeOrder a.matchType :=
      fun hc => h2 (typeOrder_inj hc.symm)
    omega
  · have hto : EngineV2.typeOrder a.matchType = EngineV2.typeOrder b.matchType := by
      rw [not_ne_iff.mp h2]
    omega

theorem rankedBelow_total (a b : MatchResult) :
    rankedBelow a b ∨ rankedBelow b a := by
  unfold rankedBelow
  omega

theorem rankedBelow_trans (a b c : MatchResult)
    (hab : rankedBelow a b) (hbc : rankedBelow b c) : rankedBelow a c := by
  unfold rankedBelow at *
  omega

instance : IsTotal MatchResult EngineV2.leV2 :=
  ⟨fun a b => by
    rcases rankedBelow_total a b with h | h
    · exact Or.inl ((leV2_iff a b).mpr h)
    · exact Or.inr ((leV2_iff b a).mpr h)⟩

instance : IsTrans MatchResult EngineV2.leV2 :=
  ⟨fun a b c hab hbc =>
    (leV2_iff a c).mpr
      (rankedBelow_trans a b c ((leV2_iff a b).mp hab) ((leV2_iff b c).mp hbc))⟩

/-! ## Claim C1 -/

/-- **C1.**  For every purchase, candidate list and options, `matchAlbum`
(both the engine and the v2 engine) returns status `matched` iff a best
match exists with confidence ≥ 95, `review` iff its confidence lies in
`[70, 95)`, and `no-match` iff no candidate survives the `minConfidence`
filter (best match absent) or the best match's confidence is below 70. -/
theorem c1_matchAlbum_status (p : Purchase) (rs : List DiscogsRelease)
    (o : MatchingOptions) :
    statusSpec (Engine.matchAlbum p rs o) ∧
    statusSpec (EngineV2.matchAlbum p rs o) ∧
    (((rs.map (fun r => Engine.calculateMatchConfidence p r (mergeDefaults o))).filter
        (fun m => m.confidence ≥ (mergeDefaults o).minConfidence.getD 0)) = [] →
      (Engine.matchAlbum p rs o).bestMatch = none ∧
      (Engine.matchAlbum p rs o).status = .noMatch) := by
  refine ⟨statusSpec_mk _ _ _, statusSpec_mk _ _ _, fun hempty => ?_⟩
  have hb : (Engine.matchAlbum p rs o).bestMatch = none := by
    rw [engine_matchAlbum_bestMatch, hempty]
    rfl
  exact ⟨hb, (statusSpec_mk _ _ _ :
    statusSpec (Engine.matchAlbum p rs o)).1 hb⟩

/-- Witness for C1 at a concrete input: an empty candidate list yields
status `no-match`. -/
theorem c1_matchAlbum_status_witness :
    (Engine.matchAlbum
      { artist := ("a").data, itemTitle := ("b").data,
        format := ("Digital").data, purchaseYear := 0 } [] {}).status =
      .noMatch := by
  have h := c1_matchAlbum_status
    { artist := ("a").data, itemTitle := ("b").data,
      format := ("Digital").data, purchaseYear := 0 } [] {}
  exact h.1.1 (by decide)

/-! ## Claim C6 -/

/-- **C6, counterexample.**  The engine's `matchAlbum` sorts by confidence
only (stably), not with the claimed classification-rank tie-break: for the
purchase (ab, cd) and the candidates (ab, "Cd") then (ab, "cd"), both
score confidence 100, yet `bestMatch` is the first-listed `normalized`
candidate while the `exact` candidate is relegated to the alternatives. -/
theorem c6_order_counterexample :
    ((Engine.matchAlbum
        { artist := ("ab").data, itemTitle := ("cd").data,
          format := ("Digital").data, purchaseYear := 0 }
        [{ id := 1, title := ("Cd").data, artists_sort := ("ab").data },
         { id := 2, title := ("cd").data, artists_sort := ("ab").data }]
        {}).bestMatch.map (fun m => (m.confidence, m.matchType)) =
      some (100, .normalized)) ∧
    ((Engine.matchAlbum
        { artist := ("ab").data, itemTitle := ("cd").data,
          format := ("Digital").data, purchaseYear := 0 }
        [{ id := 1, title := ("Cd").data, artists_sort := ("ab").data },
         { id := 2, title := ("cd").data, artists_sort := ("ab").data }]
        {}).alternatives.map (fun m => (m.confidence, m.matchType)) =
      [(100, .exact)]) := by decide

/-- **C6, amended.**  The v2 engine's `matchAlbum` orders the surviving
candidates exactly as the claim states (confidence descending, then
classification rank descending, then release year descending), with
`bestMatch` the head of that order and the alternatives the following
entries; the engine in `formats.ts` instead orders by confidence
descending only (a stable sort, so equal-confidence candidates keep their
input order regardless of classification). -/
theorem c6_order_amended (p : Purchase) (rs : List DiscogsRelease)
    (o : MatchingOptions) :
    (∃ ml : List MatchResult,
      ml.Perm
        ((rs.map (fun r => EngineV2.calculateMatchConfidence
            { p with artist := EngineV2.handleVariousArtists p.artist }
            r (mergeDefaults o))).filter
          (fun m => m.confidence ≥ (mergeDefaults o).minConfidence.getD 0)) ∧
      ml.Pairwise rankedBelow ∧
      (EngineV2.matchAlbum p rs o).bestMatch = ml.head? ∧
      (EngineV2.matchAlbum p rs o).alternatives =
        (if (mergeDefaults o).includeAlternatives.getD true then
          (ml.drop 1).take ((mergeDefaults o).maxAlternatives.getD 3)
        else [])) ∧
    (∃ ml : List MatchResult,
      ml.Perm
        ((rs.map (fun r => Engine.calculateMatchConfidence p r (mergeDefaults o))).filter
          (fun m => m.confidence ≥ (mergeDefaults o).minConfidence.getD 0)) ∧
      ml.Pairwise (fun a b => b.confidence ≤ a.confidence) ∧
      (Engine.matchAlbum p rs o).bestMatch = ml.head? ∧
      (Engine.matchAlbum p rs o).alternatives =
        (if (mergeDefaults o).includeAlternatives.getD true then
          (ml.drop 1).take ((mergeDefaults o).maxAlternatives.getD 3)
        else [])) := by
  constructor
  · refine ⟨_, List.perm_insertionSort EngineV2.leV2 _, ?_, rfl, rfl⟩
    exact (List.sorted_insertionSort EngineV2.leV2 _).imp
      (fun h => (leV2_iff _ _).mp h)
  · refine ⟨_, List.perm_insertionSort _ _, ?_, rfl, rfl⟩
    exact
      @List.sorted_insertionSort MatchResult
        (fun a b => b.confidence ≤ a.confidence) (fun a b => Int.decLe _ _)
        ⟨fun a b => le_total _ _⟩
        ⟨fun a b c hab hbc => le_trans hbc hab⟩ _

/-! ## Claim C5 -/

/-- Some candidate descriptor name contains (case-insensitively) an
allowed fragment for the purchase's format category. -/
def hasFormatMatch (fmt : Str) (fs : List FormatDesc) : Prop :=
  ∃ d ∈ fs, ∃ frag ∈ Formats.getDiscogsFormatsForBandcamp fmt,
    jsIncludes (d.name.map jsToLower) (frag.map jsToLower) = true

instance (fmt : Str) (fs : List FormatDesc) : Decidable (hasFormatMatch fmt fs) := by
  unfold hasFormatMatch; infer_instance

theorem hasMatch_any (fmt : Str) (fs : List FormatDesc)
    (hfmt : fmt ≠ ("Digital").data) :
    (fs.any (fun f => Formats.formatMatchesDiscogs fmt f.name)) =
      decide (hasFormatMatch fmt fs) := by
  have hiff : (fs.any (fun f => Formats.formatMatchesDiscogs fmt f.name)) = true ↔
      hasFormatMatch fmt fs := by
    rw [List.any_eq_true]
    unfold Formats.formatMatchesDiscogs hasFormatMatch
    constructor
    · rintro ⟨d, hd, hp⟩
      rw [if_neg hfmt] at hp
      obtain ⟨frag, hfrag, hinc⟩ := List.any_eq_true.mp hp
      exact ⟨d, hd, frag, hfrag, hinc⟩
    · rintro ⟨d, hd, frag, hfrag, hinc⟩
      exact ⟨d, hd, by
        rw [if_neg hfmt]
        exact List.any_eq_true.mpr ⟨frag, hfrag, hinc⟩⟩
  by_cases h : hasFormatMatch fmt fs
  · rw [decide_eq_true h]; exact hiff.mpr h
  · rw [decide_eq_false h]
    cases hany : fs.any (fun f => Formats.formatMatchesDiscogs fmt f.name) with
    | false => rfl
    | true => exact absurd (hiff.mp hany) h

/-- **C5, counterexample.**  In the engine of `formats.ts`, the bonus
actually added into the confidence is −5 (not −2) for a non-matching
non-Digital candidate under `loose` strictness, and +5 (not +10) for a
matching one under `strict` strictness. -/
theorem c5_formatBonus_counterexample :
    ((Engine.calculateMatchConfidence
        { artist := ("a").data, itemTitle := ("b").data,
          format := ("Vinyl").data, purchaseYear := 0 }
        { id := 1, title := ("b").data, artists_sort := ("a").data,
          formats := some [{ name := ("Cassette").data }] }
        { formatStrictness := some .loose }).breakdown.formatBonus = -5) ∧
    ((Engine.calculateMatchConfidence
        { artist := ("a").data, itemTitle := ("b").data,
          format := ("Vinyl").data, purchaseYear := 0 }
        { id := 1, title := ("b").data, artists_sort := ("a").data,
          formats := some [{ name := ("LP").data }] }
        { formatStrictness := some .strict }).breakdown.formatBonus = 5) := by
  decide

/-- **C5, amended.**  The claimed table (+5/−2 loose, +10/−10 strict,
0 for `any`, Digital, or missing descriptors) is implemented by
engine-v2's `getFormatBonus`; the engine in `formats.ts` instead adds
+5/−5 through `getFormatBonus` for every strictness except `any`, which
its caller maps to 0. -/
theorem c5_formatBonus_amended :
    (∀ (fmt : Str) (fs : List FormatDesc) (strict : Strictness),
      fmt ≠ ("Digital").data → fs ≠ [] →
      EngineV2.getFormatBonus fmt (some fs) strict =
        if strict = .anyFormat then 0
        else if hasFormatMatch fmt fs then
          (if strict = .strict then 10 else 5)
        else (if strict = .strict then -10 else -2)) ∧
    (∀ (fs : Option (List FormatDesc)) (strict : Strictness),
      EngineV2.getFormatBonus ("Digital").data fs strict = 0) ∧
    (∀ (fmt : Str) (strict : Strictness),
      EngineV2.getFormatBonus fmt none strict = 0 ∧
      EngineV2.getFormatBonus fmt (some []) strict = 0) ∧
    (∀ (p : Purchase) (r : DiscogsRelease) (o : MatchingOptions),
      (Engine.calculateMatchConfidence p r o).breakdown.formatBonus =
        (if o.formatStrictness = some .anyFormat then 0
         else Formats.getFormatBonus p.format r.formats)) ∧
    (∀ (fmt : Str) (fs : List FormatDesc),
      fmt ≠ ("Digital").data → fs ≠ [] →
      Formats.getFormatBonus fmt (some fs) =
        if hasFormatMatch fmt fs then 5 else -5) := by
  refine ⟨?_, ?_, ?_, ?_, ?_⟩
  · intro fmt fs strict hfmt hfs
    unfold EngineV2.getFormatBonus
    by_cases hany : strict = .anyFormat
    · rw [if_pos (by simp [hany]), if_pos hany]
    · rw [if_neg (by simp [hany, hfs]), if_neg hfmt, if_neg hany]
      simp only [Option.getD_some, hasMatch_any fmt fs hfmt, decide_eq_true_eq]
      by_cases hm : hasFormatMatch fmt fs <;>
        by_cases hs : strict = Strictness.strict <;>
          simp [hm, hs]
  · intro fs strict
    unfold EngineV2.getFormatBonus
    by_cases h : strict = .anyFormat || fs.isNone || (fs.getD []).isEmpty
    · rw [if_pos h]
    · rw [if_neg h, if_pos rfl]
  · intro fmt strict
    constructor <;> (unfold EngineV2.getFormatBonus; rw [if_pos (by simp)])
  · intro p r o; rfl
  · intro fmt fs hfmt hfs
    unfold Formats.getFormatBonus
    rw [if_neg hfmt]
    simp only [hasMatch_any fmt fs hfmt, decide_eq_true_eq]
    by_cases hm : hasFormatMatch fmt fs <;> simp [hm, hfs]

/-- Witness for C5 at a concrete input: a Vinyl purchase against an `LP`
descriptor under `strict` strictness gets +10 from the v2 resolver. -/
theorem c5_formatBonus_amended_witness :
    EngineV2.getFormatBonus ("Vinyl").data (some [{ name := ("LP").data }])
      .strict = 10 := by
  have h := c5_formatBonus_amended.1 ("Vinyl").data [{ name := ("LP").data }]
    .strict (by decide) (by decide)
  rw [h, if_neg (by decide), if_pos (by decide), if_pos rfl]

/-! ## Claim C2 -/

/-- **C2, counterexample.**  A call rejected by the open circuit breaker
returns a `circuit_open` error whose `fallback` is `null`, not a no-match
`MatchOutcome`. -/
theorem c2_fallback_counterexample :
    (SafeEngine.matchAlbumSafe
        { failures := 5, lastFailure := 100000, state := .openState } 100500
        { artist := some ("a").data, itemTitle := some ("b").data,
          format := some ("CD").data }
        [{ id := 1, title := ("b").data, artists_sort := ("a").data }]
        {} .completes).1 =
      .failure
        { type := .circuit_open
          message :=
            ("Service temporarily unavailable due to high error rate").data
          fallback := none } := by decide

/-- **C2, amended.**  Every `invalid_data` and `runtime_error` result of
`matchAlbumSafe` carries a fallback `MatchOutcome` (status `no-match`,
empty alternatives, query echoed from the extractable fields), but
`timeout` and `circuit_open` results carry `fallback = null`. -/
theorem c2_fallback_amended (cb : SafeEngine.CircuitBreakerState) (now : Nat)
    (p : SafeEngine.RawPurchase) (rs : List DiscogsRelease)
    (o : MatchingOptions) (ex : SafeEngine.Exec) :
    ∀ e, (SafeEngine.matchAlbumSafe cb now p rs o ex).1 = .failure e →
      (((e.type = .invalid_data ∨ e.type = .runtime_error) →
          e.fallback = some (SafeEngine.noMatchFallback (SafeEngine.echoQuery p))) ∧
       ((e.type = .timeoutKind ∨ e.type = .circuit_open) → e.fallback = none)) := by
  intro e he
  unfold SafeEngine.matchAlbumSafe at he
  rcases hchk : SafeEngine.checkCircuitBreaker cb now with ⟨allowed, cb1⟩
  rw [hchk] at he
  cases allowed with
  | false =>
    rw [if_pos (by simp)] at he
    cases he
    exact ⟨fun h => by cases h <;> simp_all, fun _ => rfl⟩
  | true =>
    rw [if_neg (by simp)] at he
    split_ifs at he with h2 h3
    · cases he
      exact ⟨fun _ => rfl, fun h => by cases h <;> simp_all⟩
    · cases he
      exact ⟨fun _ => rfl, fun h => by cases h <;> simp_all⟩
    · cases ex with
      | completes => simp at he
      | throwsErr msg =>
        simp only [] at he
        cases he
        exact ⟨fun _ => rfl, fun h => by cases h <;> simp_all⟩
      | timesOut =>
        simp only [] at he
        cases he
        exact ⟨fun h => by cases h <;> simp_all, fun _ => rfl⟩

/-- Witness for C2 at a concrete input: an invalid purchase produces an
`invalid_data` error carrying the no-match fallback. -/
theorem c2_fallback_amended_witness :
    ({ type := .invalid_data
       message := ("Missing or invalid required fields in purchase data").data
       fallback := some (SafeEngine.noMatchFallback
         (SafeEngine.echoQuery { artist := some ("a").data })) } :
        SafeEngine.MatchError).fallback =
      some (SafeEngine.noMatchFallback
        (SafeEngine.echoQuery { artist := some ("a").data })) := by
  have h := c2_fallback_amended
    { failures := 0, lastFailure := 0, state := .closed } 0
    { artist := some ("a").data } [] {} .completes
    { type := .invalid_data
      message := ("Missing or invalid required fields in purchase data").data
      fallback := some (SafeEngine.noMatchFallback
        (SafeEngine.echoQuery { artist := some ("a").data })) }
    (by decide)
  exact h.1 (Or.inl rfl)

/-! ## Claim C3 -/

/-- **C3.**  The circuit-breaker life cycle of `matchAlbumSafe`: (a) from
a closed breaker with zero failures, five consecutive failing calls leave
the breaker open with five failures recorded at the last failure time;
(b) while open and within the 60-second cool-down since the last failure,
every call returns a `circuit_open` error without invoking the engine and
without changing the breaker; (c) on the first call after the cool-down
has elapsed, `checkCircuitBreaker` moves the breaker to half-open and
lets the call through, and a success closes the breaker with the
consecutive-failure count reset to 0. -/
theorem c3_circuit_breaker (p : SafeEngine.RawPurchase)
    (rs : List DiscogsRelease) (o : MatchingOptions) (msg : Str)
    (hv : SafeEngine.validatePurchase p = true)
    (hr : SafeEngine.validateReleases rs = true) :
    (∀ l0 t1 t2 t3 t4 t5 : Nat,
      (SafeEngine.matchAlbumSafe
        (SafeEngine.matchAlbumSafe
          (SafeEngine.matchAlbumSafe
            (SafeEngine.matchAlbumSafe
              (SafeEngine.matchAlbumSafe
                { failures := 0, lastFailure := l0, state := .closed }
                t1 p rs o (.throwsErr msg)).2.1
              t2 p rs o (.throwsErr msg)).2.1
            t3 p rs o (.throwsErr msg)).2.1
          t4 p rs o (.throwsErr msg)).2.1
        t5 p rs o (.throwsErr msg)).2.1 =
        { failures := 5, lastFailure := t5, state := .openState }) ∧
    (∀ (cb : SafeEngine.CircuitBreakerState) (now : Nat) (ex : SafeEngine.Exec),
      cb.state = .openState →
      now ≤ cb.lastFailure + SafeEngine.CIRCUIT_TIMEOUT →
      SafeEngine.matchAlbumSafe cb now p rs o ex =
        (.failure
          { type := .circuit_open
            message :=
              ("Service temporarily unavailable due to high error rate").data
            fallback := none }, cb, false)) ∧
    (∀ (cb : SafeEngine.CircuitBreakerState) (now : Nat),
      cb.state = .openState →
      cb.lastFailure + SafeEngine.CIRCUIT_TIMEOUT < now →
      SafeEngine.checkCircuitBreaker cb now =
        (true, { cb with state := .halfOpen, failures := 0 }) ∧
      SafeEngine.matchAlbumSafe cb now p rs o .completes =
        (.ok (Engine.matchAlbum (SafeEngine.toPurchase p) (rs.take 100) o),
         { failures := 0, lastFailure := cb.lastFailure, state := .closed },
         true)) := by
  have failStep : ∀ (cb : SafeEngine.CircuitBreakerState) (t : Nat),
      cb.state ≠ .openState →
      (SafeEngine.matchAlbumSafe cb t p rs o (.throwsErr msg)).2.1 =
        SafeEngine.recordFailure cb t := by
    intro cb t hcb
    unfold SafeEngine.matchAlbumSafe SafeEngine.checkCircuitBreaker
    rw [if_neg hcb]
    simp [hv, hr]
  have stepEq : ∀ (f l t : Nat), f + 1 < 5 →
      SafeEngine.recordFailure { failures := f, lastFailure := l, state := .closed } t =
        { failures := f + 1, lastFailure := t, state := .closed } := by
    intro f l t hf
    show ({ failures := f + 1, lastFailure := t,
            state := if f + 1 ≥ 5 then SafeEngine.CBStatus.openState
              else SafeEngine.CBStatus.closed } :
          SafeEngine.CircuitBreakerState) = _
    rw [if_neg (by omega)]
  refine ⟨?_, ?_, ?_⟩
  · intro l0 t1 t2 t3 t4 t5
    rw [failStep { failures := 0, lastFailure := l0, state := .closed } t1
          (by simp),
        stepEq 0 l0 t1 (by omega),
        failStep { failures := 1, lastFailure := t1, state := .closed } t2
          (by simp),
        stepEq 1 t1 t2 (by omega),
        failStep { failures := 2, lastFailure := t2, state := .closed } t3
          (by simp),
        stepEq 2 t2 t3 (by omega),
        failStep { failures := 3, lastFailure := t3, state := .closed } t4
          (by simp),
        stepEq 3 t3 t4 (by omega),
        failStep { failures := 4, lastFailure := t4, state := .closed } t5
          (by simp)]
    show ({ failures := 4 + 1, lastFailure := t5,
            state := if 4 + 1 ≥ 5 then SafeEngine.CBStatus.openState
              else SafeEngine.CBStatus.closed } :
          SafeEngine.CircuitBreakerState) = _
    rw [if_pos (by omega)]
  · intro cb now ex hopen hcool
    unfold SafeEngine.matchAlbumSafe SafeEngine.checkCircuitBreaker
    rw [if_pos hopen]
    rw [if_neg (show ¬(now - cb.lastFailure > SafeEngine.CIRCUIT_TIMEOUT) by
      unfold SafeEngine.CIRCUIT_TIMEOUT at hcool ⊢
      omega)]
    rfl
  · intro cb now hopen hcool
    have hcheck : SafeEngine.checkCircuitBreaker cb now =
        (true, { cb with state := .halfOpen, failures := 0 }) := by
      unfold SafeEngine.checkCircuitBreaker
      rw [if_pos hopen]
      rw [if_pos (show now - cb.lastFailure > SafeEngine.CIRCUIT_TIMEOUT by
        unfold SafeEngine.CIRCUIT_TIMEOUT at hcool ⊢
        omega)]
    refine ⟨hcheck, ?_⟩
    unfold SafeEngine.matchAlbumSafe
    rw [hcheck]
    simp [hv, hr, SafeEngine.recordSuccess]

/-- Witness for C3 at concrete inputs: an open breaker whose cool-down
has elapsed moves to half-open and a successful probe closes it. -/
theorem c3_circuit_breaker_witness :
    SafeEngine.checkCircuitBreaker
        { failures := 5, lastFailure := 1000, state := .openState } 70000 =
      (true, { failures := 0, lastFailure := 1000, state := .halfOpen }) ∧
    SafeEngine.matchAlbumSafe
        { failures := 5, lastFailure := 1000, state := .openState } 70000
        { artist := some ("a").data, itemTitle := some ("b").data,
          format := some ("CD").data }
        [{ id := 1, title := ("b").data, artists_sort := ("a").data }]
        {} .completes =
      (.ok (Engine.matchAlbum
          (SafeEngine.toPurchase
            { artist := some ("a").data, itemTitle := some ("b").data,
              format := some ("CD").data })
          ([{ id := 1, title := ("b").data, artists_sort := ("a").data }].take 100)
          {}),
       { failures := 0, lastFailure := 1000, state := .closed }, true) := by
  have h := (c3_circuit_breaker
    { artist := some ("a").data, itemTitle := some ("b").data,
      format := some ("CD").data }
    [{ id := 1, title := ("b").data, artists_sort := ("a").data }]
    {} [] (by decide) (by decide)).2.2
    { failures := 5, lastFailure := 1000, state := .openState } 70000
    rfl (by decide)
  exact h

/-! ## Claim C8 -/

/-- **C8.**  With a valid purchase and a valid candidate list longer than
100 entries, a successful `matchAlbumSafe` result equals `matchAlbum`
applied to the first 100 candidates, and any other valid candidate list
with the same first 100 entries produces the identical result, state and
invocation behaviour: candidates beyond index 99 never reach the
scorer. -/
theorem c8_truncation (cb : SafeEngine.CircuitBreakerState) (now : Nat)
    (p : SafeEngine.RawPurchase) (rs : List DiscogsRelease)
    (o : MatchingOptions)
    (hv : SafeEngine.validatePurchase p = true)
    (hr : SafeEngine.validateReleases rs = true)
    (hlen : 100 < rs.length) :
    (∀ r, (SafeEngine.matchAlbumSafe cb now p rs o .completes).1 = .ok r →
      r = Engine.matchAlbum (SafeEngine.toPurchase p) (rs.take 100) o) ∧
    (∀ (rs' : List DiscogsRelease) (ex : SafeEngine.Exec),
      SafeEngine.validateReleases rs' = true →
      rs'.take 100 = rs.take 100 →
      SafeEngine.matchAlbumSafe cb now p rs' o ex =
        SafeEngine.matchAlbumSafe cb now p rs o ex) := by
  constructor
  · intro r hok
    unfold SafeEngine.matchAlbumSafe at hok
    rcases hchk : SafeEngine.checkCircuitBreaker cb now with ⟨allowed, cb1⟩
    rw [hchk] at hok
    cases allowed with
    | false =>
      rw [if_pos (by simp)] at hok
      simp at hok
    | true =>
      rw [if_neg (by simp)] at hok
      rw [if_neg (show ¬((!SafeEngine.validatePurchase p) = true) by simp [hv])]
        at hok
      rw [if_neg (show ¬((!SafeEngine.validateReleases rs) = true) by simp [hr])]
        at hok
      simp at hok
      first | exact hok | exact hok.symm
  · intro rs' ex hr' htake
    unfold SafeEngine.matchAlbumSafe
    rw [hr, hr', htake]

/-- Witness for C8 at concrete inputs: appending a 102nd candidate to a
101-entry list leaves the entire safe result unchanged. -/
theorem c8_truncation_witness :
    SafeEngine.matchAlbumSafe
        { failures := 0, lastFailure := 0, state := .closed } 0
        { artist := some ("a").data, itemTitle := some ("b").data,
          format := some ("CD").data }
        (List.replicate 101
          ({ id := 1, title := ("b").data, artists_sort := ("a").data } :
            DiscogsRelease) ++
         [{ id := 2, title := ("c").data, artists_sort := ("d").data }])
        {} .completes =
      SafeEngine.matchAlbumSafe
        { failures := 0, lastFailure := 0, state := .closed } 0
        { artist := some ("a").data, itemTitle := some ("b").data,
          format := some ("CD").data }
        (List.replicate 101
          ({ id := 1, title := ("b").data, artists_sort := ("a").data } :
            DiscogsRelease))
        {} .completes := by
  have h := (c8_truncation
    { failures := 0, lastFailure := 0, state := .closed } 0
    { artist := some ("a").data, itemTitle := some ("b").data,
      format := some ("CD").data }
    (List.replicate 101
      ({ id := 1, title := ("b").data, artists_sort := ("a").data } :
        DiscogsRelease))
    {} (by decide) (by decide) (by decide)).2
    (List.replicate 101
      ({ id := 1, title := ("b").data, artists_sort := ("a").data } :
        DiscogsRelease) ++
     [{ id := 2, title := ("c").data, artists_sort := ("d").data }])
    .completes (by decide) (by decide)
  exact h

/-! ## Claim C4: frequency-map lemmas -/

theorem mapGet_mem {α : Type} {m : List (Str × α)} {t : Str} {v : α}
    (h : Engine.mapGet m t = some v) : (t, v) ∈ m := by
  induction m with
  | nil => simp [Engine.mapGet] at h
  | cons kv rest ih =>
    rcases kv with ⟨k0, v0⟩
    by_cases hk : k0 = t
    · subst hk
      simp [Engine.mapGet] at h
      subst h
      simp
    · simp only [Engine.mapGet, if_neg hk] at h
      exact List.mem_cons_of_mem _ (ih h)

theorem mem_mapGet {α : Type} {m : List (Str × α)} {t : Str} {v : α}
    (hnd : (m.map Prod.fst).Nodup) (h : (t, v) ∈ m) :
    Engine.mapGet m t = some v := by
  induction m with
  | nil => simp at h
  | cons kv rest ih =>
    rcases kv with ⟨k0, v0⟩
    simp only [List.map_cons, List.nodup_cons] at hnd
    rcases List.mem_cons.mp h with heq | hmem
    · injection heq with h1 h2
      subst h1; subst h2
      simp [Engine.mapGet]
    · have hk : k0 ≠ t := by
        intro hc
        subst hc
        exact hnd.1 (List.mem_map.mpr ⟨(k0, v), hmem, rfl⟩)
      simp only [Engine.mapGet, if_neg hk]
      exact ih hnd.2 hmem

theorem mapGet_isSome_iff {α : Type} (m : List (Str × α)) (t : Str) :
    (Engine.mapGet m t).isSome ↔ t ∈ m.map Prod.fst := by
  induction m with
  | nil => simp [Engine.mapGet]
  | cons kv rest ih =>
    rcases kv with ⟨k0, v0⟩
    by_cases hk : k0 = t
    · subst hk
      refine iff_of_true ?_
        (by rw [List.map_cons]; exact List.mem_cons_self _ _)
      show ((if k0 = k0 then some v0 else Engine.mapGet rest k0)).isSome = true
      rw [if_pos rfl]
      rfl
    · have hstep : Engine.mapGet ((k0, v0) :: rest) t = Engine.mapGet rest t := by
        show (if k0 = t then some v0 else Engine.mapGet rest t) = _
        rw [if_neg hk]
      rw [hstep, ih, List.map_cons, List.mem_cons]
      exact ⟨Or.inr, fun h => h.resolve_left (fun hc => hk hc.symm)⟩

theorem mapGet_bumpFreq (m : List (Str × Nat)) (x t : Str) :
    Engine.mapGet (Engine.bumpFreq m x) t =
      if x = t then some ((Engine.mapGet m t).getD 0 + 1)
      else Engine.mapGet m t := by
  induction m with
  | nil =>
    by_cases hx : x = t <;> simp [Engine.bumpFreq, Engine.mapGet, hx]
  | cons kv rest ih =>
    rcases kv with ⟨k0, v0⟩
    by_cases hk : k0 = x
    · subst hk
      by_cases hx : k0 = t
      · subst hx
        simp [Engine.bumpFreq, Engine.mapGet]
      · simp [Engine.bumpFreq, Engine.mapGet, hx,
          show ¬(k0 = t) from hx]
    · by_cases ht : k0 = t
      · subst ht
        have hx : ¬(x = k0) := fun hc => hk hc.symm
        simp [Engine.bumpFreq, Engine.mapGet, hk, hx]
      · simp [Engine.bumpFreq, Engine.mapGet, hk, ht, ih]

theorem keys_bumpFreq (m : List (Str × Nat)) (x : Str) :
    (Engine.bumpFreq m x).map Prod.fst =
      if x ∈ m.map Prod.fst then m.map Prod.fst
      else m.map Prod.fst ++ [x] := by
  induction m with
  | nil => simp [Engine.bumpFreq]
  | cons kv rest ih =>
    rcases kv with ⟨k0, v0⟩
    by_cases hk : k0 = x
    · subst hk
      simp [Engine.bumpFreq]
    · have : ¬(x = k0) := fun hc => hk hc.symm
      by_cases hmem : x ∈ rest.map Prod.fst <;>
        simp [Engine.bumpFreq, hk, this, hmem, ih]

/-- The invariant tying the frequency map built so far to the tokens
already consumed. -/
def FreqInv (m : List (Str × Nat)) (seen : List Str) : Prop :=
  (m.map Prod.fst).Nodup ∧
  (∀ kv ∈ m, kv.2 = seen.count kv.1) ∧
  (∀ t, t ∈ m.map Prod.fst ↔ t ∈ seen)

theorem freqInv_lookup {m : List (Str × Nat)} {seen : List Str}
    (h : FreqInv m seen) (t : Str) :
    Engine.lookupFreq m t = seen.count t := by
  rcases h with ⟨hnd, hval, hmem⟩
  unfold Engine.lookupFreq
  cases hg : Engine.mapGet m t with
  | none =>
    have hnk : t ∉ m.map Prod.fst := by
      rw [← mapGet_isSome_iff, hg]
      simp
    have hns : t ∉ seen := fun hc => hnk ((hmem t).mpr hc)
    simp [List.count_eq_zero.mpr hns]
  | some v =>
    simp only [Option.getD_some]
    exact hval (t, v) (mapGet_mem hg)

theorem freqInv_bump {m : List (Str × Nat)} {seen : List Str}
    (h : FreqInv m seen) (x : Str) :
    FreqInv (Engine.bumpFreq m x) (seen ++ [x]) := by
  obtain ⟨hnd, hval, hmem⟩ := h
  have hkeys := keys_bumpFreq m x
  refine ⟨?_, ?_, ?_⟩
  · rw [hkeys]
    by_cases hx : x ∈ m.map Prod.fst
    · simpa [hx] using hnd
    · simp only [hx, if_false]
      simp [List.nodup_append, hnd, hx]
  · intro kv hkv
    have hknd : ((Engine.bumpFreq m x).map Prod.fst).Nodup := by
      rw [hkeys]
      by_cases hx : x ∈ m.map Prod.fst
      · simpa [hx] using hnd
      · simp [List.nodup_append, hnd, hx]
    have hget : Engine.mapGet (Engine.bumpFreq m x) kv.1 = some kv.2 :=
      mem_mapGet hknd hkv
    rw [mapGet_bumpFreq] at hget
    by_cases hx : x = kv.1
    · rw [if_pos hx] at hget
      simp only [Option.some.injEq] at hget
      have hlk : (Engine.mapGet m kv.1).getD 0 = seen.count kv.1 :=
        freqInv_lookup ⟨hnd, hval, hmem⟩ kv.1
      rw [← hget, hlk]
      subst hx
      simp [List.count_append]
    · rw [if_neg hx] at hget
      have hv2 : kv.2 = seen.count kv.1 := hval (kv.1, kv.2) (mapGet_mem hget)
      rw [hv2]
      have hne : kv.1 ≠ x := fun hc => hx hc.symm
      simp [List.count_append, List.count_singleton, hne]
  · intro t
    rw [hkeys]
    by_cases hx : x ∈ m.map Prod.fst <;>
      by_cases ht : t = x <;>
        simp_all [hmem]

theorem freqInv_fold (ts : List Str) :
    ∀ (m : List (Str × Nat)) (seen : List Str), FreqInv m seen →
      FreqInv (ts.foldl Engine.bumpFreq m) (seen ++ ts) := by
  induction ts with
  | nil => intro m seen h; simpa using h
  | cons x ts' ih =>
    intro m seen h
    have := ih (Engine.bumpFreq m x) (seen ++ [x]) (freqInv_bump h x)
    simpa using this

theorem freqInv_buildFreq (ts : List Str) :
    FreqInv (Engine.buildFreq ts) ts := by
  have := freqInv_fold ts [] [] ⟨by simp, by simp, by simp⟩
  simpa [Engine.buildFreq] using this

/-! ## Claim C4 -/

theorem foldl_add_eq_sum {β : Type} (g : β → Nat) (m : List β) :
    ∀ init : Nat, m.foldl (fun acc kv => acc + g kv) init = init + (m.map g).sum := by
  induction m with
  | nil => intro init; simp
  | cons x xs ih => intro init; simp [ih, Nat.add_assoc]

theorem foldl_pair_eq_sum {β : Type} (g1 g2 : β → Nat) (m : List β) :
    ∀ i1 i2 : Nat,
      m.foldl (fun (acc : Nat × Nat) kv => (acc.1 + g1 kv, acc.2 + g2 kv)) (i1, i2)
        = (i1 + (m.map g1).sum, i2 + (m.map g2).sum) := by
  induction m with
  | nil => intro i1 i2; simp
  | cons x xs ih => intro i1 i2; simp [ih, Nat.add_assoc]

theorem foldl_cond_eq_sum {β : Type} (p : β → Bool) (g : β → Nat) (m : List β) :
    ∀ init : Nat,
      m.foldl (fun acc kv => if p kv then acc + g kv else acc) init
        = init + ((m.filter p).map g).sum := by
  induction m with
  | nil => intro init; simp
  | cons x xs ih =>
    intro init
    by_cases hp : p x <;> simp [hp, ih, Nat.add_assoc]

theorem map_fst_filter {α β : Type} (p : α → Bool) (m : List (α × β)) :
    ((m.filter (fun kv => p kv.1)).map Prod.fst) = (m.map Prod.fst).filter p := by
  induction m with
  | nil => rfl
  | cons x xs ih => by_cases hp : p x.1 <;> simp [hp, ih]

theorem map_entries_eq_keys {m : List (Str × Nat)} {seen : List Str}
    (hval : ∀ kv ∈ m, kv.2 = seen.count kv.1) (f : Str → Nat → Nat) :
    m.map (fun kv => f kv.1 kv.2)
      = (m.map Prod.fst).map (fun k => f k (seen.count k)) := by
  rw [List.map_map]
  apply List.map_congr_left
  intro kv hkv
  simp only [Function.comp_apply]
  rw [hval kv hkv]

/-- `List.count` is the same under `List.instBEq` and the `BEq` derived
from decidable equality (both are lawful). -/
theorem count_beq_eq (a : Str) (l : List Str) :
    l.count a = @List.count Str instBEqOfDecidableEq a l := by
  induction l with
  | nil => rfl
  | cons x xs ih =>
    by_cases h : a = x
    · subst h
      simp [List.count_cons, ih]
    · simp [List.count_cons, h, ih]

theorem sum_count_toFinset (l : List Str) :
    (∑ t ∈ l.toFinset, l.count t) = l.length := by
  have h : (∑ t ∈ l.toFinset, l.count t)
      = ∑ t ∈ l.toFinset, @List.count Str instBEqOfDecidableEq t l :=
    Finset.sum_congr rfl (fun t _ => count_beq_eq t l)
  rw [h, List.sum_toFinset_count_eq_length]

/-- A fold over the entries of `buildFreq A` is a `Finset` sum over the
distinct tokens of `A`, with each entry's value the token's multiplicity. -/
theorem buildFreq_sum_eq (A : List Str) (f : Str → Nat → Nat) :
    ((Engine.buildFreq A).map (fun kv => f kv.1 kv.2)).sum
      = ∑ t ∈ A.toFinset, f t (A.count t) := by
  obtain ⟨hnd, hval, hmem⟩ := freqInv_buildFreq A
  rw [map_entries_eq_keys hval f, ← List.sum_toFinset _ hnd]
  apply Finset.sum_congr
  · apply Finset.ext
    intro t
    simp only [List.mem_toFinset]
    exact hmem t
  · intro t ht
    rfl

/-- Filtered variant of `buildFreq_sum_eq`, for engine-v2's second loop. -/
theorem buildFreq_filter_sum_eq (B : List Str) (p : Str → Bool) (f : Str → Nat → Nat) :
    (((Engine.buildFreq B).filter (fun kv => p kv.1)).map (fun kv => f kv.1 kv.2)).sum
      = ∑ t ∈ B.toFinset.filter (fun t => p t = true), f t (B.count t) := by
  obtain ⟨hnd, hval, hmem⟩ := freqInv_buildFreq B
  rw [map_entries_eq_keys (fun kv hkv => hval kv (List.mem_of_mem_filter hkv)) f]
  rw [map_fst_filter, ← List.sum_toFinset _ (hnd.filter p)]
  apply Finset.sum_congr
  · rw [List.toFinset_filter]
    congr 1
    apply Finset.ext
    intro t
    simp only [List.mem_toFinset]
    exact hmem t
  · intro t ht
    rfl

/-- Closed form of the engine's token similarity: the numerator is the
multiset-overlap sum, but the denominator is the number of **distinct**
tokens of the union, not the duplicate-counting total. -/
theorem engine_tokenSim_closed (a b : Str) :
    Engine.calculateTokenSimilarity a b =
      (let A := Engine.tokenize (Engine.normalizeString a)
       let B := Engine.tokenize (Engine.normalizeString b)
       if A.isEmpty || B.isEmpty then 0
       else (jsRoundNat (100 * ∑ t ∈ A.toFinset, Nat.min (A.count t) (B.count t))
         ((A ++ B).toFinset.card) : Int)) := by
  simp only [Engine.calculateTokenSimilarity]
  set A := Engine.tokenize (Engine.normalizeString a) with hA
  set B := Engine.tokenize (Engine.normalizeString b) with hB
  by_cases hAB : (A.isEmpty || B.isEmpty) = true
  · rw [if_pos hAB, if_pos hAB]
  · rw [if_neg hAB, if_neg hAB]
    rw [foldl_add_eq_sum
      (fun kv => Nat.min kv.2 (Engine.lookupFreq (Engine.buildFreq B) kv.1))
      (Engine.buildFreq A) 0]
    simp only [Nat.zero_add]
    rw [buildFreq_sum_eq A
      (fun t c => Nat.min c (Engine.lookupFreq (Engine.buildFreq B) t))]
    have hc1 : (∑ t ∈ A.toFinset,
        Nat.min (A.count t) (Engine.lookupFreq (Engine.buildFreq B) t))
        = ∑ t ∈ A.toFinset, Nat.min (A.count t) (B.count t) :=
      Finset.sum_congr rfl
        (fun t _ => by rw [freqInv_lookup (freqInv_buildFreq B) t])
    rw [hc1]
    have hA0 : A ≠ [] := by
      intro hc
      apply hAB
      simp [hc]
    have hpos : (A ++ B).dedup.length > 0 := by
      apply List.length_pos.mpr
      intro hc
      rw [List.dedup_eq_nil] at hc
      exact hA0 (List.append_eq_nil.mp hc).1
    rw [if_pos hpos, ← List.card_toFinset]

/-- Closed form of engine-v2's token similarity: the numerator doubles the
multiset-overlap sum, but the denominator counts all of `A` plus only the
`B` tokens whose token is **absent** from `A` — not the full duplicate-
counting total of both sides. -/
theorem v2_tokenSim_closed (a b : Str) :
    EngineV2.calculateTokenSimilarity a b =
      (let A := Engine.tokenize (EngineV2.normalizeString a)
       let B := Engine.tokenize (EngineV2.normalizeString b)
       if A.isEmpty || B.isEmpty then 0
       else (jsRoundNat
         (100 * ((∑ t ∈ A.toFinset, Nat.min (A.count t) (B.count t)) * 2))
         (A.length + ∑ t ∈ B.toFinset \ A.toFinset, B.count t) : Int)) := by
  simp only [EngineV2.calculateTokenSimilarity]
  set A := Engine.tokenize (EngineV2.normalizeString a) with hA
  set B := Engine.tokenize (EngineV2.normalizeString b) with hB
  by_cases hAB : (A.isEmpty || B.isEmpty) = true
  · rw [if_pos hAB, if_pos hAB]
  · rw [if_neg hAB, if_neg hAB]
    rw [foldl_pair_eq_sum
      (fun kv => Nat.min kv.2 (Engine.lookupFreq (Engine.buildFreq B) kv.1))
      (fun kv : Str × Nat => kv.2) (Engine.buildFreq A) 0 0]
    simp only [Nat.zero_add]
    rw [foldl_cond_eq_sum
      (fun kv : Str × Nat => (Engine.mapGet (Engine.buildFreq A) kv.1).isNone)
      (fun kv : Str × Nat => kv.2) (Engine.buildFreq B)]
    rw [buildFreq_sum_eq A
      (fun t c => Nat.min c (Engine.lookupFreq (Engine.buildFreq B) t))]
    rw [buildFreq_sum_eq A (fun t c => c)]
    rw [buildFreq_filter_sum_eq B
      (fun t => (Engine.mapGet (Engine.buildFreq A) t).isNone) (fun t c => c)]
    have hc1 : (∑ t ∈ A.toFinset,
        Nat.min (A.count t) (Engine.lookupFreq (Engine.buildFreq B) t))
        = ∑ t ∈ A.toFinset, Nat.min (A.count t) (B.count t) :=
      Finset.sum_congr rfl
        (fun t _ => by rw [freqInv_lookup (freqInv_buildFreq B) t])
    rw [hc1, sum_count_toFinset]
    have hset : B.toFinset.filter
        (fun t => (Engine.mapGet (Engine.buildFreq A) t).isNone = true)
        = B.toFinset \ A.toFinset := by
      obtain ⟨-, -, hmemA⟩ := freqInv_buildFreq A
      rw [Finset.sdiff_eq_filter]
      apply Finset.filter_congr
      intro t ht
      simp only [List.mem_toFinset]
      constructor
      · intro hnone hc
        have hs : (Engine.mapGet (Engine.buildFreq A) t).isSome :=
          (mapGet_isSome_iff _ t).mpr ((hmemA t).mpr hc)
        rw [Option.isNone_iff_eq_none] at hnone
        rw [hnone] at hs
        exact Bool.noConfusion hs
      · intro hnotin
        rw [Option.isNone_iff_eq_none]
        cases hg : Engine.mapGet (Engine.buildFreq A) t with
        | none => rfl
        | some v =>
          exact absurd
            ((hmemA t).mp ((mapGet_isSome_iff _ t).mp (by rw [hg]; rfl)))
            hnotin
    rw [hset]
    have hA0 : A ≠ [] := by
      intro hc
      apply hAB
      simp [hc]
    have hpos : A.length + (∑ t ∈ B.toFinset \ A.toFinset, B.count t) > 0 :=
      Nat.lt_of_lt_of_le (List.length_pos.mpr hA0) (Nat.le_add_right _ _)
    rw [if_pos hpos]

/-- The token-similarity rule exactly as the specification words it:
`round(100 * matchedTokenCount*2 / totalTokenCount)`, where
`matchedTokenCount` sums `min(freqA(t), freqB(t))` per token and
`totalTokenCount` counts all tokens from both sides with duplicates.
Stated from the spec's words for comparison with the source definitions;
the `normalize` argument abstracts over which pipeline normalizes the
inputs. -/
def specTokenSimilarity (normalize : Str → Str) (a b : Str) : Int :=
  let tokensA := Engine.tokenize (normalize a)
  let tokensB := Engine.tokenize (normalize b)
  if tokensA.isEmpty || tokensB.isEmpty then 0
  else
    let matched := ∑ t ∈ tokensA.toFinset, Nat.min (tokensA.count t) (tokensB.count t)
    let total := tokensA.length + tokensB.length
    if total > 0 then (jsRoundNat (100 * (matched * 2)) total : Int) else 0

/-- **C4, counterexample.** Neither implementation computes the claimed
`round(100 * matched*2 / totalWithDuplicates)`. The engine on "x y" vs
"x" returns 50 (denominator = 2 distinct tokens) where the claimed
formula gives 67 (round(200/3)); engine-v2 on "x" vs "x" returns 200
(denominator omits B-tokens present in A) where the claimed formula
gives 100. -/
theorem c4_token_counterexample :
    (Engine.calculateTokenSimilarity ("x y").data ("x").data = 50 ∧
     specTokenSimilarity (fun s => Engine.normalizeString s)
       ("x y").data ("x").data = 67) ∧
    (EngineV2.calculateTokenSimilarity ("x").data ("x").data = 200 ∧
     specTokenSimilarity (fun s => EngineV2.normalizeString s)
       ("x").data ("x").data = 100) := by
  decide

/-- **C4, amended.** What the two implementations actually compute, in
closed form. The engine returns
`round(100 * sum_t min(freqA t, freqB t) / |distinct tokens of A ++ B|)`
— the overlap is not doubled and the denominator is the distinct-token
count of the union. Engine-v2 returns
`round(100 * 2 * sum_t min(freqA t, freqB t) / (|A| + sum of counts of
B-tokens absent from A))` — the denominator counts duplicates but omits
every B token whose value also occurs in A. Both agree with the claimed
formula only when the two token multisets are disjoint. -/
theorem c4_token_amended (a b : Str) :
    (Engine.calculateTokenSimilarity a b =
      (let A := Engine.tokenize (Engine.normalizeString a)
       let B := Engine.tokenize (Engine.normalizeString b)
       if A.isEmpty || B.isEmpty then 0
       else (jsRoundNat (100 * ∑ t ∈ A.toFinset, Nat.min (A.count t) (B.count t))
         ((A ++ B).toFinset.card) : Int))) ∧
    (EngineV2.calculateTokenSimilarity a b =
      (let A := Engine.tokenize (EngineV2.normalizeString a)
       let B := Engine.tokenize (EngineV2.normalizeString b)
       if A.isEmpty || B.isEmpty then 0
       else (jsRoundNat
         (100 * ((∑ t ∈ A.toFinset, Nat.min (A.count t) (B.count t)) * 2))
         (A.length + ∑ t ∈ B.toFinset \ A.toFinset, B.count t) : Int))) :=
  ⟨engine_tokenSim_closed a b, v2_tokenSim_closed a b⟩

/-! ## Claim C7 -/

/-- Characters that appear in a fully normalized string besides the
space: lowercase ASCII letters, digits, underscore. -/
def plainChar (c : Char) : Bool :=
  (97 ≤ c.toNat && c.toNat ≤ 122) || (48 ≤ c.toNat && c.toNat ≤ 57) ||
  c.toNat == 95

/-- No two adjacent spaces. -/
def NoDS (s : Str) : Prop :=
  List.Chain' (fun a b => ¬(a = ' ' ∧ b = ' ')) s

/-- The normal form of the pipeline's outputs (article removal and
abbreviation expansion disabled): plain characters and single separating
spaces, trimmed. -/
def NF (s : Str) : Prop :=
  (∀ c ∈ s, (plainChar c || c.toNat == 32) = true) ∧ NoDS s ∧
  s.head? ≠ some ' ' ∧ s.getLast? ≠ some ' '

theorem char_eq_of_toNat {c d : Char} (h : c.toNat = d.toNat) : c = d :=
  Char.ext (UInt32.ext h)

theorem nfChar_toNat {c : Char} (h : (plainChar c || c.toNat == 32) = true) :
    (97 ≤ c.toNat ∧ c.toNat ≤ 122) ∨ (48 ≤ c.toNat ∧ c.toNat ≤ 57) ∨
    c.toNat = 95 ∨ c.toNat = 32 := by
  simp [plainChar] at h
  omega

theorem nfChar_not_ws {c : Char} (h : (plainChar c || c.toNat == 32) = true)
    (hsp : c ≠ ' ') : isJsWs c = false := by
  have hb := nfChar_toNat h
  have h32 : c.toNat ≠ 32 := fun hc => hsp (char_eq_of_toNat (by rw [hc]; rfl))
  simp [isJsWs]
  omega

theorem toNat_ofNat_valid {n : Nat} (h : n < 0xd800) :
    (Char.ofNat n).toNat = n := by
  unfold Char.ofNat
  rw [dif_pos (Or.inl h : Nat.isValidChar n)]
  simp [Char.ofNatAux, Char.toNat, UInt32.toNat, BitVec.toNat_ofNatLt]

theorem dropWhile_id_of_head {p : Char → Bool} {s : Str}
    (h : ∀ c, s.head? = some c → p c = false) : s.dropWhile p = s := by
  cases s with
  | nil => rfl
  | cons c cs => simp [List.dropWhile, h c rfl]

theorem head?_dropWhile {p : Char → Bool} {s : Str} {c : Char}
    (h : (s.dropWhile p).head? = some c) : p c = false := by
  induction s with
  | nil => simp [List.dropWhile] at h
  | cons d cs ih =>
    by_cases hd : p d
    · rw [List.dropWhile_cons_of_pos hd] at h
      exact ih h
    · rw [List.dropWhile_cons_of_neg hd] at h
      injection h with h
      rw [← h]
      exact Bool.of_not_eq_true hd

theorem getLast?_dropWhile {p : Char → Bool} {s : Str}
    (h : s.dropWhile p ≠ []) : (s.dropWhile p).getLast? = s.getLast? := by
  induction s with
  | nil => rfl
  | cons d cs ih =>
    by_cases hd : p d
    · rw [List.dropWhile_cons_of_pos hd] at h ⊢
      rw [ih h]
      cases hcs : cs with
      | nil =>
        rw [hcs] at h
        simp [List.dropWhile] at h
      | cons e cs' => rw [List.getLast?_cons_cons]
    · rw [List.dropWhile_cons_of_neg hd]

/-- `jsTrim` is the identity on strings with no whitespace at either
end. -/
theorem jsTrim_id {s : Str}
    (hall : ∀ c ∈ s, (plainChar c || c.toNat == 32) = true)
    (hh : s.head? ≠ some ' ') (hl : s.getLast? ≠ some ' ') : jsTrim s = s := by
  unfold jsTrim
  have h1 : s.dropWhile isJsWs = s := by
    apply dropWhile_id_of_head
    intro c hc
    have hmem : c ∈ s := by
      cases s with
      | nil => simp at hc
      | cons d cs =>
        injection hc with hc
        rw [hc]
        exact List.mem_cons_self _ _
    apply nfChar_not_ws (hall c hmem)
    intro hsp
    rw [hsp] at hc
    exact hh hc
  rw [h1]
  have h2 : s.reverse.dropWhile isJsWs = s.reverse := by
    apply dropWhile_id_of_head
    intro c hc
    rw [List.head?_reverse] at hc
    have hmem : c ∈ s := by
      have : c ∈ s.reverse := by
        rw [← List.head?_reverse] at hc
        cases hrv : s.reverse with
        | nil => rw [hrv] at hc; simp at hc
        | cons d cs =>
          rw [hrv] at hc
          injection hc with hc
          rw [hc]
          exact List.mem_cons_self _ _
      exact List.mem_reverse.mp this
    apply nfChar_not_ws (hall c hmem)
    intro hsp
    rw [hsp] at hc
    exact hl hc
  rw [h2, List.reverse_reverse]

theorem replaceWordGo_id {p0 : Char} {ps rep s : Str}
    (h : ∀ c ∈ s, c ≠ p0) :
    ∀ fuel prev, replaceWordGo p0 ps rep fuel prev s = s := by
  induction s with
  | nil => intro fuel prev; cases fuel <;> rfl
  | cons c cs ih =>
    intro fuel prev
    cases fuel with
    | zero => rfl
    | succ n =>
      have hpr : prefixRemainder (p0 :: ps) (c :: cs) = none := by
        show (if p0 = c then prefixRemainder ps cs else none) = none
        rw [if_neg (fun hc => h c (List.mem_cons_self _ _) hc.symm)]
      show (match prefixRemainder (p0 :: ps) (c :: cs) with
        | some rest =>
          if !prev && boundaryAfter rest then
            rep ++ replaceWordGo p0 ps rep n (isWordChar (ps.getLastD p0)) rest
          else c :: replaceWordGo p0 ps rep n (isWordChar c) cs
        | none => c :: replaceWordGo p0 ps rep n (isWordChar c) cs) = c :: cs
      rw [hpr]
      rw [ih (fun d hd => h d (List.mem_cons_of_mem _ hd)) n (isWordChar c)]

theorem replaceWordAll_id {pat rep s : Str}
    (h : ∀ c ∈ s, ∀ d, pat.head? = some d → c ≠ d) :
    replaceWordAll pat rep s = s := by
  cases pat with
  | nil => rfl
  | cons p0 ps =>
    exact replaceWordGo_id (fun c hc => h c hc p0 rfl) s.length false

theorem foldl_fun_id {α β : Type} (l : List β) (f : α → β → α) (a : α)
    (h : ∀ b ∈ l, f a b = a) : l.foldl f a = a := by
  induction l with
  | nil => rfl
  | cons b l' ih =>
    rw [List.foldl_cons, h b (List.mem_cons_self _ _)]
    exact ih (fun b' hb' => h b' (List.mem_cons_of_mem _ hb'))

theorem romanFold_id {s : Str}
    (hall : ∀ c ∈ s, (plainChar c || c.toNat == 32) = true) :
    romanPairs.foldl (fun acc pr => replaceWordAll pr.1 pr.2 acc) s = s := by
  apply foldl_fun_id
  intro pr hpr
  have hhead : ∀ pr ∈ romanPairs, pr.1.head? = some 'X' ∨
      pr.1.head? = some 'I' ∨ pr.1.head? = some 'V' := by decide
  apply replaceWordAll_id
  intro c hc d hd hcd
  have hb := nfChar_toNat (hall c hc)
  have hdn : d.toNat = 88 ∨ d.toNat = 73 ∨ d.toNat = 86 := by
    rcases hhead pr hpr with h | h | h <;> rw [hd] at h <;>
      injection h with h <;> rw [h] <;> decide
  rw [hcd] at hb
  omega

theorem jsToLower_id {c : Char} (h : (plainChar c || c.toNat == 32) = true) :
    jsToLower c = c := by
  have hb := nfChar_toNat h
  unfold jsToLower
  rw [if_neg (by simp; omega)]
  rw [if_neg (by simp; omega)]
  rw [if_neg (fun hc => by rw [hc] at hb; revert hb; decide)]
  rw [if_neg (fun hc => by rw [hc] at hb; revert hb; decide)]
  rw [if_neg (fun hc => by rw [hc] at hb; revert hb; decide)]
  rw [if_neg (fun hc => by rw [hc] at hb; revert hb; decide)]
  rw [if_neg (fun hc => by rw [hc] at hb; revert hb; decide)]

theorem map_lower_id {s : Str}
    (hall : ∀ c ∈ s, (plainChar c || c.toNat == 32) = true) :
    s.map jsToLower = s := by
  have h := List.map_congr_left (fun c hc => jsToLower_id (hall c hc))
  rw [h]
  exact List.map_id' s

theorem nfdChar_ascii {c : Char} (h : c.toNat ≤ 0x7f) : nfdChar c = [c] := by
  unfold nfdChar
  exact if_pos h

theorem nfdStrip_id {s : Str}
    (hall : ∀ c ∈ s, (plainChar c || c.toNat == 32) = true) :
    nfdStrip s = s := by
  unfold nfdStrip
  induction s with
  | nil => rfl
  | cons c cs ih =>
    have hb := nfChar_toNat (hall c (List.mem_cons_self _ _))
    rw [List.flatMap_cons, nfdChar_ascii (by omega)]
    rw [List.singleton_append, List.filter_cons]
    rw [if_pos (by simp [isCombiningMark]; omega)]
    rw [ih (fun d hd => hall d (List.mem_cons_of_mem _ hd))]

theorem charReplace_id {f : Char} {rep s : Str}
    (h : ∀ c ∈ s, c ≠ f) : charReplace f rep s = s := by
  unfold charReplace
  induction s with
  | nil => rfl
  | cons c cs ih =>
    rw [List.flatMap_cons]
    rw [if_neg (h c (List.mem_cons_self _ _))]
    rw [List.singleton_append, ih (fun d hd => h d (List.mem_cons_of_mem _ hd))]

theorem NoDS_tail {c : Char} {cs : Str} (h : NoDS (c :: cs)) : NoDS cs :=
  List.Chain'.tail h

theorem NoDS_head {c c2 : Char} {cs : Str} (h : NoDS (c :: c2 :: cs)) :
    ¬(c = ' ' ∧ c2 = ' ') :=
  (List.chain'_cons'.mp h).1 c2 rfl

theorem collapseWsGo_id {s : Str}
    (hws : ∀ c ∈ s, isJsWs c = true → c = ' ') (hnds : NoDS s) :
    ∀ prev, (prev = true → s.head? ≠ some ' ') → collapseWsGo prev s = s := by
  induction s with
  | nil => intro prev _; rfl
  | cons c cs ih =>
    intro prev hprev
    by_cases hc : isJsWs c = true
    · have hcsp : c = ' ' := hws c (List.mem_cons_self _ _) hc
      subst hcsp
      cases prev with
      | true => exact absurd rfl (hprev rfl)
      | false =>
        show (if isJsWs ' ' then
            if false then collapseWsGo true cs else ' ' :: collapseWsGo true cs
          else ' ' :: collapseWsGo false cs) = ' ' :: cs
        rw [if_pos hc, if_neg (by simp)]
        congr 1
        apply ih (fun d hd h => hws d (List.mem_cons_of_mem _ hd) h)
          (NoDS_tail hnds)
        intro _ hh
        cases hcs : cs with
        | nil => rw [hcs] at hh; simp at hh
        | cons c2 cs' =>
          rw [hcs] at hh hnds
          injection hh with hh
          exact NoDS_head hnds ⟨rfl, hh⟩
    · show (if isJsWs c then
          if prev = true then collapseWsGo true cs else ' ' :: collapseWsGo true cs
        else c :: collapseWsGo false cs) = c :: cs
      rw [if_neg (by simpa using hc)]
      congr 1
      apply ih (fun d hd h => hws d (List.mem_cons_of_mem _ hd) h)
        (NoDS_tail hnds)
      intro h
      exact absurd h (by simp)

theorem collapseWs_id {s : Str}
    (hws : ∀ c ∈ s, isJsWs c = true → c = ' ') (hnds : NoDS s) :
    collapseWs s = s :=
  collapseWsGo_id hws hnds false (fun h => absurd h (by simp))

theorem nf_ws_space {c : Char} (h : (plainChar c || c.toNat == 32) = true)
    (hw : isJsWs c = true) : c = ' ' := by
  have hb := nfChar_toNat h
  simp [isJsWs] at hw
  have h32 : c.toNat = 32 := by omega
  exact char_eq_of_toNat (h32.trans (by decide : (32 : Nat) = Char.toNat ' '))

theorem nf_ne_high {c : Char} (h : (plainChar c || c.toNat == 32) = true)
    {m : Nat} (hm1 : 123 ≤ m) (hm2 : m < 0xd800) : c ≠ Char.ofNat m := by
  intro hceq
  have hb := nfChar_toNat h
  have ht := congrArg Char.toNat hceq
  rw [toNat_ofNat_valid hm2] at ht
  omega

theorem quotes_id {s : Str}
    (hall : ∀ c ∈ s, (plainChar c || c.toNat == 32) = true) (hnds : NoDS s) :
    normalizeQuotesDashes s = s := by
  simp only [normalizeQuotesDashes]
  have hm1 : (s.map (fun c =>
      if c = Char.ofNat 0x2018 || c = Char.ofNat 0x2019 then '\'' else c)) = s := by
    rw [List.map_congr_left (fun c hc => ?_), List.map_id' s]
    rw [if_neg ?_]
    simp only [Bool.or_eq_true, decide_eq_true_eq]
    push_neg
    exact ⟨nf_ne_high (hall c hc) (by omega) (by omega),
      nf_ne_high (hall c hc) (by omega) (by omega)⟩
  rw [hm1]
  have hm2 : (s.map (fun c =>
      if c = Char.ofNat 0x201c || c = Char.ofNat 0x201d then '"' else c)) = s := by
    rw [List.map_congr_left (fun c hc => ?_), List.map_id' s]
    rw [if_neg ?_]
    simp only [Bool.or_eq_true, decide_eq_true_eq]
    push_neg
    exact ⟨nf_ne_high (hall c hc) (by omega) (by omega),
      nf_ne_high (hall c hc) (by omega) (by omega)⟩
  rw [hm2]
  have hm3 : (s.map (fun c =>
      if c = Char.ofNat 0x2013 || c = Char.ofNat 0x2014 then '-' else c)) = s := by
    rw [List.map_congr_left (fun c hc => ?_), List.map_id' s]
    rw [if_neg ?_]
    simp only [Bool.or_eq_true, decide_eq_true_eq]
    push_neg
    exact ⟨nf_ne_high (hall c hc) (by omega) (by omega),
      nf_ne_high (hall c hc) (by omega) (by omega)⟩
  rw [hm3]
  rw [charReplace_id (fun c hc => nf_ne_high (hall c hc) (by omega) (by omega))]
  exact collapseWs_id (fun c hc hw => nf_ws_space (hall c hc) hw) hnds

theorem filter_word_id {s : Str}
    (hall : ∀ c ∈ s, (plainChar c || c.toNat == 32) = true) :
    s.filter (fun c => isWordChar c || isJsWs c || c = '-') = s := by
  apply List.filter_eq_self.mpr
  intro c hc
  have hb := nfChar_toNat (hall c hc)
  simp [isWordChar, isJsWs]
  omega

theorem filter_dash_id {s : Str}
    (hall : ∀ c ∈ s, (plainChar c || c.toNat == 32) = true) :
    s.filter (fun c => c ≠ '-') = s := by
  apply List.filter_eq_self.mpr
  intro c hc
  have hb := nfChar_toNat (hall c hc)
  simp only [ne_eq, decide_not, Bool.not_eq_true', decide_eq_false_iff_not]
  intro hceq
  have ht := congrArg Char.toNat hceq
  have : Char.toNat '-' = 45 := by decide
  rw [this] at ht
  omega

/-- With article removal and abbreviation expansion disabled, the
normalization pipeline fixes every string in normal form. -/
theorem normalizeString_id {s : Str} {o : NormOptions}
    (h1 : o.removeArticles = some false)
    (h2 : o.expandAbbreviations = some false)
    (hnf : NF s) : Engine.normalizeString s o = s := by
  obtain ⟨hall, hnds, hh, hl⟩ := hnf
  by_cases hs : s = []
  · subst hs
    simp [Engine.normalizeString]
  · simp only [Engine.normalizeString]
    rw [if_neg hs]
    rw [h1, h2]
    rw [if_neg (show ¬((some false : Option Bool) ≠ some false) from
      fun hc => hc rfl)]
    rw [if_neg (show ¬((some false : Option Bool) ≠ some false) from
      fun hc => hc rfl)]
    rw [jsTrim_id hall hh hl]
    rw [romanFold_id hall]
    rw [map_lower_id hall]
    rw [nfdStrip_id hall]
    rw [charReplace_id (fun c hc => nf_ne_high (hall c hc) (by omega) (by omega))]
    rw [charReplace_id (fun c hc => nf_ne_high (hall c hc) (by omega) (by omega))]
    rw [charReplace_id (fun c hc => nf_ne_high (hall c hc) (by omega) (by omega))]
    rw [quotes_id hall hnds]
    rw [filter_word_id hall]
    rw [filter_dash_id hall]
    rw [collapseWs_id (fun c hc hw => nf_ws_space (hall c hc) hw) hnds]
    exact jsTrim_id hall hh hl

def notUpper (c : Char) : Prop := ¬(65 ≤ c.toNat ∧ c.toNat ≤ 90)

theorem jsToLower_notUpper (c : Char) : notUpper (jsToLower c) := by
  unfold jsToLower notUpper
  split_ifs with hb1 hb2 h3 h4 h5 h6 h7
  · simp at hb1
    rw [toNat_ofNat_valid (by omega)]
    omega
  · simp at hb2
    rw [toNat_ofNat_valid (by omega)]
    omega
  · decide
  · decide
  · decide
  · decide
  · decide
  · simp at hb1
    omega

theorem nfdChar_notUpper {d c : Char} (hd : notUpper d)
    (hc : c ∈ nfdChar d) : notUpper c := by
  by_cases h0 : d.toNat ≤ 0x7f
  · rw [nfdChar_ascii h0, List.mem_singleton] at hc
    subst hc
    exact hd
  by_cases h1 : d = Char.ofNat 0xe0
  · subst h1
    rw [show nfdChar (Char.ofNat 0xe0) = ['a', Char.ofNat 0x300] from by decide] at hc
    rcases List.mem_cons.mp hc with h | h
    · subst h
      unfold notUpper
      decide
    · rw [List.mem_singleton] at h
      subst h
      unfold notUpper
      decide
  by_cases h2 : d = Char.ofNat 0xe1
  · subst h2
    rw [show nfdChar (Char.ofNat 0xe1) = ['a', Char.ofNat 0x301] from by decide] at hc
    rcases List.mem_cons.mp hc with h | h
    · subst h
      unfold notUpper
      decide
    · rw [List.mem_singleton] at h
      subst h
      unfold notUpper
      decide
  by_cases h3 : d = Char.ofNat 0xe2
  · subst h3
    rw [show nfdChar (Char.ofNat 0xe2) = ['a', Char.ofNat 0x302] from by decide] at hc
    rcases List.mem_cons.mp hc with h | h
    · subst h
      unfold notUpper
      decide
    · rw [List.mem_singleton] at h
      subst h
      unfold notUpper
      decide
  by_cases h4 : d = Char.ofNat 0xe3
  · subst h4
    rw [show nfdChar (Char.ofNat 0xe3) = ['a', Char.ofNat 0x303] from by decide] at hc
    rcases List.mem_cons.mp hc with h | h
    · subst h
      unfold notUpper
      decide
    · rw [List.mem_singleton] at h
      subst h
      unfold notUpper
      decide
  by_cases h5 : d = Char.ofNat 0xe4
  · subst h5
    rw [show nfdChar (Char.ofNat 0xe4) = ['a', Char.ofNat 0x308] from by decide] at hc
    rcases List.mem_cons.mp hc with h | h
    · subst h
      unfold notUpper
      decide
    · rw [List.mem_singleton] at h
      subst h
      unfold notUpper
      decide
  by_cases h6 : d = Char.ofNat 0xe5
  · subst h6
    rw [show nfdChar (Char.ofNat 0xe5) = ['a', Char.ofNat 0x30a] from by decide] at hc
    rcases List.mem_cons.mp hc with h | h
    · subst h
      unfold notUpper
      decide
    · rw [List.mem_singleton] at h
      subst h
      unfold notUpper
      decide
  by_cases h7 : d = Char.ofNat 0xe7
  · subst h7
    rw [show nfdChar (Char.ofNat 0xe7) = ['c', Char.ofNat 0x327] from by decide] at hc
    rcases List.mem_cons.mp hc with h | h
    · subst h
      unfold notUpper
      decide
    · rw [List.mem_singleton] at h
      subst h
      unfold notUpper
      decide
  by_cases h8 : d = Char.ofNat 0xe8
  · subst h8
    rw [show nfdChar (Char.ofNat 0xe8) = ['e', Char.ofNat 0x300] from by decide] at hc
    rcases List.mem_cons.mp hc with h | h
    · subst h
      unfold notUpper
      decide
    · rw [List.mem_singleton] at h
      subst h
      unfold notUpper
      decide
  by_cases h9 : d = Char.ofNat 0xe9
  · subst h9
    rw [show nfdChar (Char.ofNat 0xe9) = ['e', Char.ofNat 0x301] from by decide] at hc
    rcases List.mem_cons.mp hc with h | h
    · subst h
      unfold notUpper
      decide
    · rw [List.mem_singleton] at h
      subst h
      unfold notUpper
      decide
  by_cases h10 : d = Char.ofNat 0xea
  · subst h10
    rw [show nfdChar (Char.ofNat 0xea) = ['e', Char.ofNat 0x302] from by decide] at hc
    rcases List.mem_cons.mp hc with h | h
    · subst h
      unfold notUpper
      decide
    · rw [List.mem_singleton] at h
      subst h
      unfold notUpper
      decide
  by_cases h11 : d = Char.ofNat 0xeb
  · subst h11
    rw [show nfdChar (Char.ofNat 0xeb) = ['e', Char.ofNat 0x308] from by decide] at hc
    rcases List.mem_cons.mp hc with h | h
    · subst h
      unfold notUpper
      decide
    · rw [List.mem_singleton] at h
      subst h
      unfold notUpper
      decide
  by_cases h12 : d = Char.ofNat 0xec
  · subst h12
    rw [show nfdChar (Char.ofNat 0xec) = ['i', Char.ofNat 0x300] from by decide] at hc
    rcases List.mem_cons.mp hc with h | h
    · subst h
      unfold notUpper
      decide
    · rw [List.mem_singleton] at h
      subst h
      unfold notUpper
      decide
  by_cases h13 : d = Char.ofNat 0xed
  · subst h13
    rw [show nfdChar (Char.ofNat 0xed) = ['i', Char.ofNat 0x301] from by decide] at hc
    rcases List.mem_cons.mp hc with h | h
    · subst h
      unfold notUpper
      decide
    · rw [List.mem_singleton] at h
      subst h
      unfold notUpper
      decide
  by_cases h14 : d = Char.ofNat 0xee
  · subst h14
    rw [show nfdChar (Char.ofNat 0xee) = ['i', Char.ofNat 0x302] from by decide] at hc
    rcases List.mem_cons.mp hc with h | h
    · subst h
      unfold notUpper
      decide
    · rw [List.mem_singleton] at h
      subst h
      unfold notUpper
      decide
  by_cases h15 : d = Char.ofNat 0xef
  · subst h15
    rw [show nfdChar (Char.ofNat 0xef) = ['i', Char.ofNat 0x308] from by decide] at hc
    rcases List.mem_cons.mp hc with h | h
    · subst h
      unfold notUpper
      decide
    · rw [List.mem_singleton] at h
      subst h
      unfold notUpper
      decide
  by_cases h16 : d = Char.ofNat 0xf1
  · subst h16
    rw [show nfdChar (Char.ofNat 0xf1) = ['n', Char.ofNat 0x303] from by decide] at hc
    rcases List.mem_cons.mp hc with h | h
    · subst h
      unfold notUpper
      decide
    · rw [List.mem_singleton] at h
      subst h
      unfold notUpper
      decide
  by_cases h17 : d = Char.ofNat 0xf2
  · subst h17
    rw [show nfdChar (Char.ofNat 0xf2) = ['o', Char.ofNat 0x300] from by decide] at hc
    rcases List.mem_cons.mp hc with h | h
    · subst h
      unfold notUpper
      decide
    · rw [List.mem_singleton] at h
      subst h
      unfold notUpper
      decide
  by_cases h18 : d = Char.ofNat 0xf3
  · subst h18
    rw [show nfdChar (Char.ofNat 0xf3) = ['o', Char.ofNat 0x301] from by decide] at hc
    rcases List.mem_cons.mp hc with h | h
    · subst h
      unfold notUpper
      decide
    · rw [List.mem_singleton] at h
      subst h
      unfold notUpper
      decide
  by_cases h19 : d = Char.ofNat 0xf4
  · subst h19
    rw [show nfdChar (Char.ofNat 0xf4) = ['o', Char.ofNat 0x302] from by decide] at hc
    rcases List.mem_cons.mp hc with h | h
    · subst h
      unfold notUpper
      decide
    · rw [List.mem_singleton] at h
      subst h
      unfold notUpper
      decide
  by_cases h20 : d = Char.ofNat 0xf5
  · subst h20
    rw [show nfdChar (Char.ofNat 0xf5) = ['o', Char.ofNat 0x303] from by decide] at hc
    rcases List.mem_cons.mp hc with h | h
    · subst h
      unfold notUpper
      decide
    · rw [List.mem_singleton] at h
      subst h
      unfold notUpper
      decide
  by_cases h21 : d = Char.ofNat 0xf6
  · subst h21
    rw [show nfdChar (Char.ofNat 0xf6) = ['o', Char.ofNat 0x308] from by decide] at hc
    rcases List.mem_cons.mp hc with h | h
    · subst h
      unfold notUpper
      decide
    · rw [List.mem_singleton] at h
      subst h
      unfold notUpper
      decide
  by_cases h22 : d = Char.ofNat 0xf9
  · subst h22
    rw [show nfdChar (Char.ofNat 0xf9) = ['u', Char.ofNat 0x300] from by decide] at hc
    rcases List.mem_cons.mp hc with h | h
    · subst h
      unfold notUpper
      decide
    · rw [List.mem_singleton] at h
      subst h
      unfold notUpper
      decide
  by_cases h23 : d = Char.ofNat 0xfa
  · subst h23
    rw [show nfdChar (Char.ofNat 0xfa) = ['u', Char.ofNat 0x301] from by decide] at hc
    rcases List.mem_cons.mp hc with h | h
    · subst h
      unfold notUpper
      decide
    · rw [List.mem_singleton] at h
      subst h
      unfold notUpper
      decide
  by_cases h24 : d = Char.ofNat 0xfb
  · subst h24
    rw [show nfdChar (Char.ofNat 0xfb) = ['u', Char.ofNat 0x302] from by decide] at hc
    rcases List.mem_cons.mp hc with h | h
    · subst h
      unfold notUpper
      decide
    · rw [List.mem_singleton] at h
      subst h
      unfold notUpper
      decide
  by_cases h25 : d = Char.ofNat 0xfc
  · subst h25
    rw [show nfdChar (Char.ofNat 0xfc) = ['u', Char.ofNat 0x308] from by decide] at hc
    rcases List.mem_cons.mp hc with h | h
    · subst h
      unfold notUpper
      decide
    · rw [List.mem_singleton] at h
      subst h
      unfold notUpper
      decide
  by_cases h26 : d = Char.ofNat 0xfd
  · subst h26
    rw [show nfdChar (Char.ofNat 0xfd) = ['y', Char.ofNat 0x301] from by decide] at hc
    rcases List.mem_cons.mp hc with h | h
    · subst h
      unfold notUpper
      decide
    · rw [List.mem_singleton] at h
      subst h
      unfold notUpper
      decide
  by_cases h27 : d = Char.ofNat 0xff
  · subst h27
    rw [show nfdChar (Char.ofNat 0xff) = ['y', Char.ofNat 0x308] from by decide] at hc
    rcases List.mem_cons.mp hc with h | h
    · subst h
      unfold notUpper
      decide
    · rw [List.mem_singleton] at h
      subst h
      unfold notUpper
      decide
  by_cases h28 : d = Char.ofNat 0x161
  · subst h28
    rw [show nfdChar (Char.ofNat 0x161) = ['s', Char.ofNat 0x30c] from by decide] at hc
    rcases List.mem_cons.mp hc with h | h
    · subst h
      unfold notUpper
      decide
    · rw [List.mem_singleton] at h
      subst h
      unfold notUpper
      decide
  by_cases h29 : d = Char.ofNat 0x17e
  · subst h29
    rw [show nfdChar (Char.ofNat 0x17e) = ['z', Char.ofNat 0x30c] from by decide] at hc
    rcases List.mem_cons.mp hc with h | h
    · subst h
      unfold notUpper
      decide
    · rw [List.mem_singleton] at h
      subst h
      unfold notUpper
      decide
  have hfall : nfdChar d = [d] := by
    simp only [nfdChar]
    rw [if_neg h0, if_neg h1, if_neg h2, if_neg h3, if_neg h4, if_neg h5, if_neg h6, if_neg h7, if_neg h8, if_neg h9, if_neg h10, if_neg h11, if_neg h12, if_neg h13, if_neg h14, if_neg h15, if_neg h16, if_neg h17, if_neg h18, if_neg h19, if_neg h20, if_neg h21, if_neg h22, if_neg h23, if_neg h24, if_neg h25, if_neg h26, if_neg h27, if_neg h28, if_neg h29]
  rw [hfall, List.mem_singleton] at hc
  subst hc
  exact hd

theorem mem_nfdStrip {s : Str} {c : Char} (hc : c ∈ nfdStrip s) :
    ∃ d ∈ s, c ∈ nfdChar d := by
  unfold nfdStrip at hc
  rw [List.mem_filter] at hc
  exact List.mem_flatMap.mp hc.1

theorem mem_charReplace {f : Char} {rep s : Str} {c : Char}
    (hc : c ∈ charReplace f rep s) : c ∈ rep ∨ c ∈ s := by
  unfold charReplace at hc
  rw [List.mem_flatMap] at hc
  obtain ⟨d, hd, hcd⟩ := hc
  by_cases hdf : d = f
  · rw [if_pos hdf] at hcd
    exact Or.inl hcd
  · rw [if_neg hdf] at hcd
    simp at hcd
    subst hcd
    exact Or.inr hd

theorem mem_collapseWsGo {s : Str} {c : Char} :
    ∀ prev, c ∈ collapseWsGo prev s → c = ' ' ∨ (c ∈ s ∧ isJsWs c = false) := by
  induction s with
  | nil => intro prev h; simp [collapseWsGo] at h
  | cons d cs ih =>
    intro prev h
    by_cases hd : isJsWs d
    · rw [show collapseWsGo prev (d :: cs) = (if prev then collapseWsGo true cs
          else ' ' :: collapseWsGo true cs) by
            show (if isJsWs d then _ else _) = _
            rw [if_pos hd]] at h
      by_cases hprev : prev
      · rw [if_pos hprev] at h
        rcases ih true h with h' | h'
        · exact Or.inl h'
        · exact Or.inr ⟨List.mem_cons_of_mem _ h'.1, h'.2⟩
      · rw [if_neg hprev] at h
        rcases List.mem_cons.mp h with h' | h'
        · exact Or.inl h'
        · rcases ih true h' with h'' | h''
          · exact Or.inl h''
          · exact Or.inr ⟨List.mem_cons_of_mem _ h''.1, h''.2⟩
    · rw [show collapseWsGo prev (d :: cs) = d :: collapseWsGo false cs by
        show (if isJsWs d then _ else _) = _
        rw [if_neg hd]] at h
      rcases List.mem_cons.mp h with h' | h'
      · subst h'
        exact Or.inr ⟨List.mem_cons_self _ _, Bool.of_not_eq_true hd⟩
      · rcases ih false h' with h'' | h''
        · exact Or.inl h''
        · exact Or.inr ⟨List.mem_cons_of_mem _ h''.1, h''.2⟩

theorem mem_jsTrim {s : Str} {c : Char} (hc : c ∈ jsTrim s) : c ∈ s := by
  unfold jsTrim at hc
  rw [List.mem_reverse] at hc
  have h1 := (List.dropWhile_sublist _).mem hc
  rw [List.mem_reverse] at h1
  exact (List.dropWhile_sublist _).mem h1

theorem NoDS_dropWhile {p : Char → Bool} {s : Str} (h : NoDS s) :
    NoDS (s.dropWhile p) := by
  induction s with
  | nil => exact h
  | cons c cs ih =>
    by_cases hc : p c
    · rw [List.dropWhile_cons_of_pos hc]
      exact ih (NoDS_tail h)
    · rw [List.dropWhile_cons_of_neg hc]
      exact h

theorem NoDS_reverse {s : Str} (h : NoDS s) : NoDS s.reverse := by
  unfold NoDS
  rw [List.chain'_reverse]
  exact List.Chain'.imp (fun a b hab hc => hab ⟨hc.2, hc.1⟩) h

/-- The collapse pass never emits two adjacent spaces, and after a
whitespace run it never starts with a space. -/
theorem collapseWsGo_nods (s : Str) :
    ∀ prev, NoDS (collapseWsGo prev s) ∧
      (prev = true → (collapseWsGo prev s).head? ≠ some ' ') := by
  induction s with
  | nil =>
    intro prev
    exact ⟨List.chain'_nil, fun _ => by simp [collapseWsGo]⟩
  | cons c cs ih =>
    intro prev
    by_cases hc : isJsWs c
    · have hstep : collapseWsGo prev (c :: cs) = (if prev then collapseWsGo true cs
          else ' ' :: collapseWsGo true cs) := by
        show (if isJsWs c then _ else _) = _
        rw [if_pos hc]
      rw [hstep]
      by_cases hprev : prev
      · rw [if_pos hprev]
        simp only [hprev]
        exact ⟨(ih true).1, fun _ => (ih true).2 rfl⟩
      · rw [if_neg hprev]
        constructor
        · apply List.chain'_cons'.mpr
          refine ⟨?_, (ih true).1⟩
          intro y hy hcontra
          exact (ih true).2 rfl (by rw [hy, hcontra.2])
        · intro hp
          exact absurd hp hprev
    · have hstep : collapseWsGo prev (c :: cs) = c :: collapseWsGo false cs := by
        show (if isJsWs c then _ else _) = _
        rw [if_neg hc]
      rw [hstep]
      have hcsp : c ≠ ' ' := by
        intro hceq
        subst hceq
        exact hc (by decide)
      constructor
      · apply List.chain'_cons'.mpr
        refine ⟨?_, (ih false).1⟩
        intro y _ hcontra
        exact hcsp hcontra.1
      · intro _
        simp only [List.head?_cons]
        intro hcontra
        injection hcontra with hcontra
        exact hcsp hcontra

theorem notUpper_map_lower (m : Str) : ∀ c ∈ m.map jsToLower, notUpper c := by
  intro c hc
  obtain ⟨d, _, hcd⟩ := List.mem_map.mp hc
  rw [← hcd]
  exact jsToLower_notUpper d

theorem notUpper_nfdStrip {t : Str} (ht : ∀ c ∈ t, notUpper c) :
    ∀ c ∈ nfdStrip t, notUpper c := by
  intro c hc
  obtain ⟨d, hd, hcd⟩ := mem_nfdStrip hc
  exact nfdChar_notUpper (ht d hd) hcd

theorem notUpper_charReplace {f : Char} {rep t : Str}
    (hrep : ∀ c ∈ rep, notUpper c) (ht : ∀ c ∈ t, notUpper c) :
    ∀ c ∈ charReplace f rep t, notUpper c := fun c hc =>
  (mem_charReplace hc).elim (fun h => hrep c h) (fun h => ht c h)

theorem notUpper_quotes {t : Str} (ht : ∀ c ∈ t, notUpper c) :
    ∀ c ∈ normalizeQuotesDashes t, notUpper c := by
  intro c hc
  simp only [normalizeQuotesDashes] at hc
  rcases mem_collapseWsGo false hc with h | h
  · subst h
    unfold notUpper
    decide
  · rcases mem_charReplace h.1 with h' | h'
    · simp at h'
      subst h'
      unfold notUpper
      decide
    · obtain ⟨d3, hd3, hg3⟩ := List.mem_map.mp h'
      obtain ⟨d2, hd2, hg2⟩ := List.mem_map.mp hd3
      obtain ⟨d1, hd1, hg1⟩ := List.mem_map.mp hd2
      have hstep : ∀ (A B q : Char), notUpper q → ∀ d, notUpper d →
          notUpper (if d = A || d = B then q else d) := by
        intro A B q hq d hd
        by_cases h0 : (d = A || d = B) = true
        · rw [if_pos h0]
          exact hq
        · rw [if_neg h0]
          exact hd
      rw [← hg3, ← hg2, ← hg1]
      apply hstep _ _ _ (by unfold notUpper; decide)
      apply hstep _ _ _ (by unfold notUpper; decide)
      apply hstep _ _ _ (by unfold notUpper; decide)
      exact ht d1 hd1

theorem NoDS_jsTrim {t : Str} (h : NoDS t) : NoDS (jsTrim t) := by
  unfold jsTrim
  exact NoDS_reverse (NoDS_dropWhile (NoDS_reverse (NoDS_dropWhile h)))

theorem jsTrim_head_not_ws {t : Str} {c : Char}
    (hc : (jsTrim t).head? = some c) : isJsWs c = false := by
  unfold jsTrim at hc
  rw [List.head?_reverse] at hc
  have hne : (t.dropWhile isJsWs).reverse.dropWhile isJsWs ≠ [] := by
    intro h0
    rw [h0] at hc
    simp at hc
  rw [getLast?_dropWhile hne, List.getLast?_reverse] at hc
  exact head?_dropWhile hc

theorem jsTrim_getLast_not_ws {t : Str} {c : Char}
    (hc : (jsTrim t).getLast? = some c) : isJsWs c = false := by
  unfold jsTrim at hc
  rw [List.getLast?_reverse] at hc
  exact head?_dropWhile hc

/-- The final collapse-and-trim puts any word-or-whitespace string into
normal form. -/
theorem NF_trim_collapse {n : Str}
    (hn : ∀ c ∈ n, (isWordChar c || isJsWs c) = true ∧ notUpper c) :
    NF (jsTrim (collapseWs n)) := by
  have hallT0 : ∀ c ∈ collapseWs n, (plainChar c || c.toNat == 32) = true := by
    intro c hc
    rcases mem_collapseWsGo false hc with h | h
    · subst h
      decide
    · obtain ⟨hmem, hnws⟩ := h
      obtain ⟨hword, hup⟩ := hn c hmem
      rw [hnws, Bool.or_false] at hword
      unfold notUpper at hup
      simp [isWordChar] at hword
      simp [plainChar]
      omega
  refine ⟨?_, ?_, ?_, ?_⟩
  · intro c hc
    exact hallT0 c (mem_jsTrim hc)
  · exact NoDS_jsTrim (collapseWsGo_nods n false).1
  · intro hcon
    have := jsTrim_head_not_ws hcon
    simp [isJsWs] at this
  · intro hcon
    have := jsTrim_getLast_not_ws hcon
    simp [isJsWs] at this

/-- With article removal and abbreviation expansion disabled, every
pipeline output is in normal form. -/
theorem normalizeString_nf (s : Str) {o : NormOptions}
    (h1 : o.removeArticles = some false)
    (h2 : o.expandAbbreviations = some false) :
    NF (Engine.normalizeString s o) := by
  by_cases hs : s = []
  · have hout : Engine.normalizeString s o = [] := by
      subst hs
      simp [Engine.normalizeString]
    rw [hout]
    exact ⟨by simp, List.chain'_nil, by simp, by simp⟩
  · simp only [Engine.normalizeString]
    rw [if_neg hs, h1, h2]
    rw [if_neg (show ¬((some false : Option Bool) ≠ some false) from
      fun hc => hc rfl)]
    rw [if_neg (show ¬((some false : Option Bool) ≠ some false) from
      fun hc => hc rfl)]
    apply NF_trim_collapse
    intro c hc
    rw [List.mem_filter] at hc
    obtain ⟨hc1, hp2⟩ := hc
    rw [List.mem_filter] at hc1
    obtain ⟨hc8, hp1⟩ := hc1
    constructor
    · simp only [Bool.or_eq_true] at hp1 ⊢
      rcases hp1 with (h | h) | h
      · exact Or.inl h
      · exact Or.inr h
      · exfalso
        simp only [decide_eq_true_eq] at h
        simp only [ne_eq, decide_not, Bool.not_eq_true',
          decide_eq_false_iff_not] at hp2
        exact hp2 h
    · exact notUpper_quotes
        (notUpper_charReplace
          (by intro e he; simp at he; rcases he with he | he <;> subst he <;>
            (unfold notUpper; decide))
          (notUpper_charReplace
            (by intro e he; simp at he; rcases he with he | he <;> subst he <;>
              (unfold notUpper; decide))
            (notUpper_charReplace
              (by intro e he; simp at he; subst he; unfold notUpper; decide)
              (notUpper_nfdStrip (notUpper_map_lower _)))))
        c hc8

/-- **C7, counterexample.** Normalization is not idempotent. With default
options `normalizeString "the the band" = "the band"` (one leading
article stripped), and a second application strips another:
`normalizeString "the band" = "band"`. Even with article removal
disabled, hyphen removal can re-form an abbreviation that a second pass
then expands: `normalizeString "fe-at song" = "feat song"`, and
`normalizeString "feat song" = "featuring song"`. -/
theorem c7_idem_counterexample :
    (Engine.normalizeString (Engine.normalizeString ("the the band").data) ≠
       Engine.normalizeString ("the the band").data) ∧
    (Engine.normalizeString
        (Engine.normalizeString ("fe-at song").data
          ⟨some false, none, none⟩) ⟨some false, none, none⟩ ≠
       Engine.normalizeString ("fe-at song").data ⟨some false, none, none⟩) := by
  decide

/-- **C7, amended.** `normalizeString` is idempotent when the two
rewriting passes that can re-trigger — leading-article removal and
abbreviation expansion — are disabled: every output then consists of
lowercase word characters separated by single spaces, trimmed, and the
pipeline fixes every such string. With either pass enabled a second
application can strip a further article or expand an abbreviation
re-formed by punctuation removal. -/
theorem c7_idem_amended (s : Str) (o : NormOptions)
    (h1 : o.removeArticles = some false)
    (h2 : o.expandAbbreviations = some false) :
    Engine.normalizeString (Engine.normalizeString s o) o
      = Engine.normalizeString s o :=
  normalizeString_id h1 h2 (normalizeString_nf s h1 h2)

/-- Witness: the amended C7 theorem applied at a concrete string and
options, its hypotheses discharged definitionally. -/
theorem c7_idem_amended_witness :
    (⟨some false, some false, none⟩ : NormOptions).removeArticles = some false ∧
    (⟨some false, some false, none⟩ : NormOptions).expandAbbreviations = some false ∧
    Engine.normalizeString
        (Engine.normalizeString ("The Hello,  WORLD!").data
          ⟨some false, some false, none⟩) ⟨some false, some false, none⟩
      = Engine.normalizeString ("The Hello,  WORLD!").data
          ⟨some false, some false, none⟩ :=
  ⟨rfl, rfl, c7_idem_amended (("The Hello,  WORLD!").data)
    ⟨some false, some false, none⟩ rfl rfl⟩

/-! ## Claim C10 -/

/-- `true` iff the string contains no two consecutive colons. The cache
key separator is `::`, so keys decompose uniquely as long as the
serialized-options suffix satisfies this. -/
def noDoubleColon : Str → Bool
  | [] => true
  | [_] => true
  | a :: b :: rest => !(a == ':' && b == ':') && noDoubleColon (b :: rest)

theorem noDoubleColon_append (l r : Str) :
    noDoubleColon (l ++ ':' :: ':' :: r) = false := by
  induction l with
  | nil => simp [noDoubleColon]
  | cons c l' ih =>
    cases hl : l' ++ ':' :: ':' :: r with
    | nil => exact absurd hl (by simp)
    | cons x rest =>
      rw [List.cons_append, hl]
      rw [hl] at ih
      simp [noDoubleColon, ih]

theorem optLit_cases (x : Option Bool) :
    x = none ∨ x = some true ∨ x = some false := by
  rcases x with _ | b
  · exact Or.inl rfl
  · cases b
    · exact Or.inr (Or.inr rfl)
    · exact Or.inr (Or.inl rfl)

/-- No serialized options object contains `::`. -/
theorem noDoubleColon_json (o : NormOptions) :
    noDoubleColon (Cache.jsonStringifyOpts o) = true := by
  rcases o with ⟨ra, ea, na⟩
  rcases optLit_cases ra with h | h | h <;> subst h <;>
    rcases optLit_cases ea with h | h | h <;> subst h <;>
      rcases optLit_cases na with h | h | h <;> subst h <;> decide

/-- `JSON.stringify` is injective on the 27 possible option objects. -/
theorem jsonStringifyOpts_inj {o1 o2 : NormOptions}
    (h : Cache.jsonStringifyOpts o1 = Cache.jsonStringifyOpts o2) : o1 = o2 := by
  rcases o1 with ⟨ra, ea, na⟩
  rcases o2 with ⟨ra2, ea2, na2⟩
  rcases optLit_cases ra with h1 | h1 | h1 <;> subst h1 <;>
    rcases optLit_cases ea with h2 | h2 | h2 <;> subst h2 <;>
      rcases optLit_cases na with h3 | h3 | h3 <;> subst h3 <;>
        rcases optLit_cases ra2 with h4 | h4 | h4 <;> subst h4 <;>
          rcases optLit_cases ea2 with h5 | h5 | h5 <;> subst h5 <;>
            rcases optLit_cases na2 with h6 | h6 | h6 <;> subst h6 <;>
              first
                | rfl
                | exact absurd h (by decide)

theorem json_head (o : NormOptions) :
    (Cache.jsonStringifyOpts o).head? = some '{' := rfl

/-- Splitting a string at the **separator** `::` is unambiguous when both
candidate suffixes contain no `::` and start with a non-colon. -/
theorem sep_split_inj : ∀ (s1 s2 j1 j2 : Str),
    s1 ++ ':' :: ':' :: j1 = s2 ++ ':' :: ':' :: j2 →
    noDoubleColon j1 = true → noDoubleColon j2 = true →
    j1.head? ≠ some ':' → j2.head? ≠ some ':' →
    s1 = s2 ∧ j1 = j2 := by
  intro s1
  induction s1 with
  | nil =>
    intro s2 j1 j2 h hj1 hj2 hh1 hh2
    cases s2 with
    | nil =>
      simp only [List.nil_append] at h
      injection h with _ h
      injection h with _ h
      exact ⟨rfl, h⟩
    | cons c s2' =>
      simp only [List.nil_append, List.cons_append] at h
      injection h with hc h
      cases s2' with
      | nil =>
        simp only [List.nil_append] at h
        injection h with _ h
        exact absurd (by rw [h]; rfl) hh1
      | cons d s2'' =>
        simp only [List.cons_append] at h
        injection h with hd h
        rw [h, noDoubleColon_append] at hj1
        exact absurd hj1 (by decide)
  | cons a s1' ih =>
    intro s2 j1 j2 h hj1 hj2 hh1 hh2
    cases s2 with
    | nil =>
      simp only [List.cons_append, List.nil_append] at h
      injection h with hc h
      cases s1' with
      | nil =>
        simp only [List.nil_append] at h
        injection h with _ h
        exact absurd (by rw [← h]; rfl) hh2
      | cons b s1'' =>
        simp only [List.cons_append] at h
        injection h with hb h
        rw [← h, noDoubleColon_append] at hj2
        exact absurd hj2 (by decide)
    | cons b s2' =>
      simp only [List.cons_append] at h
      injection h with hab h
      obtain ⟨hs, hj⟩ := ih s2' j1 j2 h hj1 hj2 hh1 hh2
      exact ⟨by rw [hab, hs], hj⟩

/-- The cache key `str ++ "::" ++ JSON.stringify(options)` determines the
input string and the options. -/
theorem cacheKey_inj {s1 s2 : Str} {o1 o2 : NormOptions}
    (h : Cache.cacheKey s1 o1 = Cache.cacheKey s2 o2) : s1 = s2 ∧ o1 = o2 := by
  unfold Cache.cacheKey at h
  have hsep := sep_split_inj s1 s2 _ _ h
    (noDoubleColon_json o1) (noDoubleColon_json o2)
    (by rw [json_head]; decide) (by rw [json_head]; decide)
  exact ⟨hsep.1, jsonStringifyOpts_inj hsep.2⟩

theorem cacheSet_mem {c : Cache.NormCache} {k v : Str} {kv : Str × Str}
    (h : kv ∈ Cache.cacheSet c k v) : kv = (k, v) ∨ kv ∈ c := by
  induction c with
  | nil => simpa [Cache.cacheSet] using h
  | cons e rest ih =>
    rcases e with ⟨k0, v0⟩
    simp only [Cache.cacheSet] at h
    by_cases hk : k0 = k
    · rw [if_pos hk] at h
      rcases List.mem_cons.mp h with h | h
      · subst hk
        exact Or.inl h
      · exact Or.inr (List.mem_cons_of_mem _ h)
    · rw [if_neg hk] at h
      rcases List.mem_cons.mp h with h | h
      · rw [h]
        exact Or.inr (List.mem_cons_self _ _)
      · rcases ih h with h' | h'
        · exact Or.inl h'
        · exact Or.inr (List.mem_cons_of_mem _ h')

/-- Every entry of the cache stores exactly the pipeline's output for the
string and options its key encodes. -/
def CacheOk (c : Cache.NormCache) : Prop :=
  ∀ s o v, (Cache.cacheKey s o, v) ∈ c → v = Engine.normalizeString s o

theorem normalizeStringCached_ok {c : Cache.NormCache} (hC : CacheOk c)
    (s : Str) (o : NormOptions) :
    (Cache.normalizeStringCached c s o).1 = Engine.normalizeString s o ∧
    CacheOk (Cache.normalizeStringCached c s o).2 := by
  unfold Cache.normalizeStringCached
  by_cases hs : s = []
  · rw [if_pos hs]
    subst hs
    exact ⟨by simp [Engine.normalizeString], hC⟩
  · rw [if_neg hs]
    cases hg : Engine.mapGet c (Cache.cacheKey s o) with
    | some v =>
      refine ⟨?_, hC⟩
      exact hC s o v (mapGet_mem hg)
    | none =>
      refine ⟨rfl, ?_⟩
      intro s' o' v' hmem
      simp only [] at hmem
      rcases cacheSet_mem hmem with h | h
      · have hk : Cache.cacheKey s' o' = Cache.cacheKey s o :=
          congrArg Prod.fst h
        have hv : v' = Engine.normalizeString s o := congrArg Prod.snd h
        rcases cacheKey_inj hk with ⟨hseq, hoeq⟩
        rw [hseq, hoeq, hv]
      · have hin : (Cache.cacheKey s' o', v') ∈ c := by
          by_cases hlen : Cache.CACHE_MAX_SIZE ≤ c.length
          · rw [if_pos hlen] at h
            exact List.mem_of_mem_tail h
          · rw [if_neg hlen] at h
            exact h
        exact hC s' o' v' hin

theorem runCached_ok : ∀ (calls : List (Str × NormOptions)) (c : Cache.NormCache),
    CacheOk c →
    (Cache.runCached c calls).1
      = calls.map (fun call => Engine.normalizeString call.1 call.2) ∧
    CacheOk (Cache.runCached c calls).2 := by
  intro calls
  induction calls with
  | nil => intro c hC; exact ⟨rfl, hC⟩
  | cons call rest ih =>
    intro c hC
    rcases call with ⟨s, o⟩
    obtain ⟨hv, hC'⟩ := normalizeStringCached_ok hC s o
    obtain ⟨hrest, hCend⟩ := ih _ hC'
    refine ⟨?_, ?_⟩
    · simp only [Cache.runCached, List.map_cons]
      rw [hv, hrest]
    · simp only [Cache.runCached]
      exact hCend

/-- **C10.** The memoized `normalizeString` is extensionally the pure
pipeline: whatever sequence of prior calls populated (and possibly
evicted entries of) the shared cache, a subsequent sequence of calls
returns exactly the cache-less `normalizeString` value for each input.
This rests on the injectivity of the cache key
`str ++ "::" ++ JSON.stringify(options)`. -/
theorem c10_cache_transparent (prior calls : List (Str × NormOptions)) :
    (Cache.runCached (Cache.runCached [] prior).2 calls).1
      = calls.map (fun call => Engine.normalizeString call.1 call.2) := by
  have h0 : CacheOk [] := fun s o v h => absurd h (List.not_mem_nil _)
  exact (runCached_ok calls _ ((runCached_ok prior [] h0).2)).1

/-! ## Claim C9 -/

/-- The result a batch item should produce, as a function of that item's
own fetch outcome alone. -/
def batchItemSpec (fetch : SafeEngine.RawPurchase → Except Str (List DiscogsRelease))
    (o : MatchingOptions) (p : SafeEngine.RawPurchase) :
    SafeEngine.SafeMatchResult :=
  match fetch p with
  | .error msg =>
    .failure
      { type := .runtime_error
        message := ("Failed to process: ").data ++ msg
        fallback := some (SafeEngine.noMatchFallback (SafeEngine.echoQuery p)) }
  | .ok rs => .ok (Engine.matchAlbum (SafeEngine.toPurchase p) (rs.take 100) o)

theorem recordSuccess_closed (cb : SafeEngine.CircuitBreakerState)
    (h : cb.state = .closed) : SafeEngine.recordSuccess cb = cb := by
  unfold SafeEngine.recordSuccess
  rw [if_neg (by rw [h]; intro hc; cases hc)]

theorem batchItem_isolated (cb : SafeEngine.CircuitBreakerState) (now : Nat)
    (fetch : SafeEngine.RawPurchase → Except Str (List DiscogsRelease))
    (exec : SafeEngine.RawPurchase → SafeEngine.Exec) (o : MatchingOptions)
    (p : SafeEngine.RawPurchase)
    (hcb : cb.state = .closed)
    (hv : SafeEngine.validatePurchase p = true)
    (hr : (match fetch p with
           | .ok rs => SafeEngine.validateReleases rs
           | .error _ => true) = true)
    (hex : exec p = .completes) :
    SafeEngine.batchItem cb now fetch exec o p = (batchItemSpec fetch o p, cb) := by
  unfold SafeEngine.batchItem batchItemSpec
  cases hf : fetch p with
  | error msg => rfl
  | ok rs =>
    rw [hf] at hr
    have hr' : SafeEngine.validateReleases rs = true := hr
    unfold SafeEngine.matchAlbumSafe SafeEngine.checkCircuitBreaker
    rw [if_neg (by rw [hcb]; intro hc; cases hc), hex]
    simp [hv, hr', recordSuccess_closed cb hcb]

theorem batchChunk_isolated (now : Nat)
    (fetch : SafeEngine.RawPurchase → Except Str (List DiscogsRelease))
    (exec : SafeEngine.RawPurchase → SafeEngine.Exec) (o : MatchingOptions) :
    ∀ (chunk : List SafeEngine.RawPurchase)
      (acc : List SafeEngine.SafeMatchResult)
      (cb : SafeEngine.CircuitBreakerState),
      cb.state = .closed →
      (∀ p ∈ chunk, SafeEngine.validatePurchase p = true) →
      (∀ p ∈ chunk, (match fetch p with
        | .ok rs => SafeEngine.validateReleases rs
        | .error _ => true) = true) →
      (∀ p ∈ chunk, exec p = .completes) →
      chunk.foldl
        (fun (a : List SafeEngine.SafeMatchResult × SafeEngine.CircuitBreakerState) p =>
          let r := SafeEngine.batchItem a.2 now fetch exec o p
          (a.1 ++ [r.1], r.2))
        (acc, cb) =
      (acc ++ chunk.map (batchItemSpec fetch o), cb) := by
  intro chunk
  induction chunk with
  | nil => intro acc cb _ _ _ _; simp
  | cons p ps ih =>
    intro acc cb hcb hv hr hex
    have hstep := batchItem_isolated cb now fetch exec o p hcb
      (hv p (by simp)) (hr p (by simp)) (hex p (by simp))
    simp only [List.foldl_cons, hstep]
    rw [ih (acc ++ [batchItemSpec fetch o p]) cb hcb
      (fun q hq => hv q (by simp [hq]))
      (fun q hq => hr q (by simp [hq]))
      (fun q hq => hex q (by simp [hq]))]
    simp

theorem batchGo_isolated (now : Nat)
    (fetch : SafeEngine.RawPurchase → Except Str (List DiscogsRelease))
    (exec : SafeEngine.RawPurchase → SafeEngine.Exec) (o : MatchingOptions) :
    ∀ (fuel : Nat) (purchases : List SafeEngine.RawPurchase)
      (cb : SafeEngine.CircuitBreakerState),
      purchases.length ≤ fuel →
      cb.state = .closed →
      (∀ p ∈ purchases, SafeEngine.validatePurchase p = true) →
      (∀ p ∈ purchases, (match fetch p with
        | .ok rs => SafeEngine.validateReleases rs
        | .error _ => true) = true) →
      (∀ p ∈ purchases, exec p = .completes) →
      SafeEngine.matchAlbumBatchGo now fetch exec o fuel cb purchases =
        (purchases.map (batchItemSpec fetch o), cb) := by
  intro fuel
  induction fuel with
  | zero =>
    intro purchases cb hlen _ _ _ _
    have : purchases = [] := List.length_eq_zero.mp (Nat.le_zero.mp hlen)
    subst this
    rfl
  | succ fuel ih =>
    intro purchases cb hlen hcb hv hr hex
    cases purchases with
    | nil => rfl
    | cons p ps =>
      simp only [SafeEngine.matchAlbumBatchGo]
      rw [batchChunk_isolated now fetch exec o ((p :: ps).take
            (SafeEngine.batchConcurrency o)) [] cb hcb
          (fun q hq => hv q (List.mem_of_mem_take hq))
          (fun q hq => hr q (List.mem_of_mem_take hq))
          (fun q hq => hex q (List.mem_of_mem_take hq))]
      rw [ih ((p :: ps).drop (SafeEngine.batchConcurrency o)) cb
          (by
            have hc := SafeEngine.batchConcurrency_pos o
            simp only [List.length_drop, List.length_cons] at *
            omega)
          hcb
          (fun q hq => hv q (List.mem_of_mem_drop hq))
          (fun q hq => hr q (List.mem_of_mem_drop hq))
          (fun q hq => hex q (List.mem_of_mem_drop hq))]
      simp only [List.nil_append]
      rw [← List.map_append, List.take_append_drop]

/-- The chunked batch fold equals plain sequential threading of the
breaker through the items: one call of the per-item pipeline per
purchase, in order. -/
def batchSeq (now : Nat)
    (fetch : SafeEngine.RawPurchase → Except Str (List DiscogsRelease))
    (exec : SafeEngine.RawPurchase → SafeEngine.Exec) (o : MatchingOptions) :
    SafeEngine.CircuitBreakerState → List SafeEngine.RawPurchase →
    List SafeEngine.SafeMatchResult × SafeEngine.CircuitBreakerState
  | cb, [] => ([], cb)
  | cb, p :: ps =>
    let r := SafeEngine.batchItem cb now fetch exec o p
    let rest := batchSeq now fetch exec o r.2 ps
    (r.1 :: rest.1, rest.2)

theorem batchSeq_append (now : Nat)
    (fetch : SafeEngine.RawPurchase → Except Str (List DiscogsRelease))
    (exec : SafeEngine.RawPurchase → SafeEngine.Exec) (o : MatchingOptions) :
    ∀ (xs ys : List SafeEngine.RawPurchase) (cb : SafeEngine.CircuitBreakerState),
    batchSeq now fetch exec o cb (xs ++ ys) =
      ((batchSeq now fetch exec o cb xs).1 ++
        (batchSeq now fetch exec o (batchSeq now fetch exec o cb xs).2 ys).1,
       (batchSeq now fetch exec o (batchSeq now fetch exec o cb xs).2 ys).2) := by
  intro xs
  induction xs with
  | nil => intro ys cb; simp [batchSeq]
  | cons p xs' ih =>
    intro ys cb
    simp only [List.cons_append, batchSeq, List.append_eq]
    rw [ih]

theorem chunkFold_eq_seq (now : Nat)
    (fetch : SafeEngine.RawPurchase → Except Str (List DiscogsRelease))
    (exec : SafeEngine.RawPurchase → SafeEngine.Exec) (o : MatchingOptions) :
    ∀ (chunk : List SafeEngine.RawPurchase)
      (acc : List SafeEngine.SafeMatchResult)
      (cb : SafeEngine.CircuitBreakerState),
    chunk.foldl
      (fun (a : List SafeEngine.SafeMatchResult × SafeEngine.CircuitBreakerState) p =>
        let r := SafeEngine.batchItem a.2 now fetch exec o p
        (a.1 ++ [r.1], r.2)) (acc, cb)
      = (acc ++ (batchSeq now fetch exec o cb chunk).1,
         (batchSeq now fetch exec o cb chunk).2) := by
  intro chunk
  induction chunk with
  | nil => intro acc cb; simp [batchSeq]
  | cons p ps ih =>
    intro acc cb
    simp only [List.foldl_cons, batchSeq]
    rw [ih]
    simp

theorem batchGo_eq_seq (now : Nat)
    (fetch : SafeEngine.RawPurchase → Except Str (List DiscogsRelease))
    (exec : SafeEngine.RawPurchase → SafeEngine.Exec) (o : MatchingOptions) :
    ∀ (fuel : Nat) (purchases : List SafeEngine.RawPurchase)
      (cb : SafeEngine.CircuitBreakerState),
    purchases.length ≤ fuel →
    SafeEngine.matchAlbumBatchGo now fetch exec o fuel cb purchases =
      batchSeq now fetch exec o cb purchases := by
  intro fuel
  induction fuel with
  | zero =>
    intro purchases cb hlen
    have : purchases = [] := List.length_eq_zero.mp (Nat.le_zero.mp hlen)
    subst this
    rfl
  | succ fuel ih =>
    intro purchases cb hlen
    cases purchases with
    | nil => rfl
    | cons p ps =>
      simp only [SafeEngine.matchAlbumBatchGo]
      rw [chunkFold_eq_seq]
      rw [ih ((p :: ps).drop (SafeEngine.batchConcurrency o)) _
        (by
          have hc := SafeEngine.batchConcurrency_pos o
          simp only [List.length_drop, List.length_cons] at *
          omega)]
      conv_rhs => rw [← List.take_append_drop (SafeEngine.batchConcurrency o) (p :: ps)]
      rw [batchSeq_append]
      simp

theorem batchSeq_length (now : Nat)
    (fetch : SafeEngine.RawPurchase → Except Str (List DiscogsRelease))
    (exec : SafeEngine.RawPurchase → SafeEngine.Exec) (o : MatchingOptions) :
    ∀ (ps : List SafeEngine.RawPurchase) (cb : SafeEngine.CircuitBreakerState),
    (batchSeq now fetch exec o cb ps).1.length = ps.length := by
  intro ps
  induction ps with
  | nil => intro cb; rfl
  | cons p ps' ih =>
    intro cb
    simp only [batchSeq, List.length_cons]
    rw [ih]

/-- A fetch rejection becomes the item's own `runtime_error` at the
item's position, whatever the breaker state: `batchItem`'s catch branch
never consults the breaker. -/
theorem batchSeq_fetch_error (now : Nat)
    (fetch : SafeEngine.RawPurchase → Except Str (List DiscogsRelease))
    (exec : SafeEngine.RawPurchase → SafeEngine.Exec) (o : MatchingOptions) :
    ∀ (ps : List SafeEngine.RawPurchase) (cb : SafeEngine.CircuitBreakerState)
      (i : Nat) (p : SafeEngine.RawPurchase) (msg : Str),
    ps.get? i = some p → fetch p = .error msg →
    (batchSeq now fetch exec o cb ps).1.get? i =
      some (.failure
        { type := .runtime_error
          message := ("Failed to process: ").data ++ msg
          fallback := some (SafeEngine.noMatchFallback (SafeEngine.echoQuery p)) }) := by
  intro ps
  induction ps with
  | nil => intro cb i p msg hi _; simp at hi
  | cons q ps' ih =>
    intro cb i p msg hi hf
    cases i with
    | zero =>
      rw [List.get?_cons_zero] at hi
      injection hi with hi
      subst hi
      simp only [batchSeq]
      rw [List.get?_cons_zero]
      unfold SafeEngine.batchItem
      rw [hf]
    | succ j =>
      rw [List.get?_cons_succ] at hi
      simp only [batchSeq]
      rw [List.get?_cons_succ]
      exact ih _ j p msg hi hf

/-- **C9, counterexample.**  One item's matcher exception can prevent a
sibling from being processed.  Five valid items whose matcher throws
each record a failure on the shared breaker; the fifth opens it, and the
sixth item — whose own fetch and matcher succeed, as the second conjunct
shows by running it alone from the same breaker state — returns a
`circuit_open` error without its matcher ever being invoked.  This
refutes "one item's failure never prevents sibling items from being
processed" and the spec's "items 1 and 3 still return successful
MatchOutcomes". -/
theorem c9_batch_counterexample :
    (let bad : SafeEngine.RawPurchase :=
      { artist := some ("bad").data, itemTitle := some ("t").data,
        format := some ("CD").data }
     let good : SafeEngine.RawPurchase :=
      { artist := some ("good").data, itemTitle := some ("t").data,
        format := some ("CD").data }
     let fetch : SafeEngine.RawPurchase → Except Str (List DiscogsRelease) :=
      fun _ => .ok []
     let exec : SafeEngine.RawPurchase → SafeEngine.Exec := fun p =>
      if p.artist = some ("bad").data then .throwsErr ("boom").data
      else .completes
     ((SafeEngine.matchAlbumBatch { failures := 0, lastFailure := 0, state := .closed }
         0 [bad, bad, bad, bad, bad, good] fetch exec {}).1.get? 5 =
       some (.failure
         { type := .circuit_open
           message :=
             ("Service temporarily unavailable due to high error rate").data
           fallback := none })) ∧
     ((SafeEngine.matchAlbumBatch { failures := 0, lastFailure := 0, state := .closed }
         0 [good] fetch exec {}).1 =
       [.ok (Engine.matchAlbum (SafeEngine.toPurchase good) [] {})])) := by
  decide

/-- **C9, amended.**  What does hold: (1) the batch never aborts — it
returns exactly one result per purchase, in order; (2) a fetch exception
becomes that item's own `runtime_error` result with a no-match fallback
at that item's position, unconditionally; (3) a matcher exception is
likewise converted into that item's own `runtime_error` with a no-match
fallback whenever the breaker admits the call; and (4) when no item's
matcher invocation throws and the breaker starts closed, isolation is
complete: every item's result is a function of its own fetch outcome
alone and the breaker is left unchanged.  But a matcher exception also
records a failure on the shared breaker, so — as the counterexample
shows — it can open the breaker mid-batch and turn later items' results
into `circuit_open` errors. -/
theorem c9_batch_amended (cb : SafeEngine.CircuitBreakerState) (now : Nat)
    (purchases : List SafeEngine.RawPurchase)
    (fetch : SafeEngine.RawPurchase → Except Str (List DiscogsRelease))
    (exec : SafeEngine.RawPurchase → SafeEngine.Exec) (o : MatchingOptions) :
    ((SafeEngine.matchAlbumBatch cb now purchases fetch exec o).1.length =
      purchases.length) ∧
    (∀ (i : Nat) (p : SafeEngine.RawPurchase) (msg : Str),
      purchases.get? i = some p → fetch p = .error msg →
      (SafeEngine.matchAlbumBatch cb now purchases fetch exec o).1.get? i =
        some (.failure
          { type := .runtime_error
            message := ("Failed to process: ").data ++ msg
            fallback := some (SafeEngine.noMatchFallback
              (SafeEngine.echoQuery p)) })) ∧
    (∀ (p : SafeEngine.RawPurchase) (rs : List DiscogsRelease) (msg : Str),
      cb.state = .closed →
      SafeEngine.validatePurchase p = true →
      SafeEngine.validateReleases rs = true →
      (SafeEngine.matchAlbumSafe cb now p rs o (.throwsErr msg)).1 =
        .failure
          { type := .runtime_error
            message := if msg.isEmpty
              then ("Unknown error during matching").data else msg
            fallback := some (SafeEngine.noMatchFallback
              (SafeEngine.echoQuery p)) }) ∧
    (cb.state = .closed →
      (∀ p ∈ purchases, SafeEngine.validatePurchase p = true) →
      (∀ p ∈ purchases, (match fetch p with
        | .ok rs => SafeEngine.validateReleases rs
        | .error _ => true) = true) →
      (∀ p ∈ purchases, exec p = .completes) →
      SafeEngine.matchAlbumBatch cb now purchases fetch exec o =
        (purchases.map (batchItemSpec fetch o), cb)) := by
  refine ⟨?_, ?_, ?_, ?_⟩
  · unfold SafeEngine.matchAlbumBatch
    rw [batchGo_eq_seq now fetch exec o purchases.length purchases cb le_rfl]
    exact batchSeq_length now fetch exec o purchases cb
  · intro i p msg hi hf
    unfold SafeEngine.matchAlbumBatch
    rw [batchGo_eq_seq now fetch exec o purchases.length purchases cb le_rfl]
    exact batchSeq_fetch_error now fetch exec o purchases cb i p msg hi hf
  · intro p rs msg hcb hv hr
    unfold SafeEngine.matchAlbumSafe
    have hchk : SafeEngine.checkCircuitBreaker cb now = (true, cb) := by
      unfold SafeEngine.checkCircuitBreaker
      rw [if_neg (by rw [hcb]; intro hc; cases hc)]
    rw [hchk]
    simp [hv, hr]
  · intro hcb hv hr hex
    unfold SafeEngine.matchAlbumBatch
    exact batchGo_isolated now fetch exec o purchases.length purchases cb
      le_rfl hcb hv hr hex

/-- Witness for the amended C9 theorem at concrete inputs: a three-item
batch whose second fetch rejects returns three results; item 2's entry is
its own `runtime_error` with a no-match fallback; a matcher exception on
item 1 alone is converted into its own `runtime_error`; and with every
matcher completing, the batch equals the per-item spec map with the
breaker unchanged. -/
theorem c9_batch_amended_witness :
    ((SafeEngine.matchAlbumBatch
        { failures := 0, lastFailure := 0, state := .closed } 0
        [{ artist := some ("a1").data, itemTitle := some ("t1").data,
           format := some ("CD").data },
         { artist := some ("a2").data, itemTitle := some ("t2").data,
           format := some ("CD").data },
         { artist := some ("a3").data, itemTitle := some ("t3").data,
           format := some ("CD").data }]
        (fun p => if p.artist = some ("a2").data then .error ("kaboom").data
          else .ok [{ id := 1, title := ("t1").data, artists_sort := ("a1").data }])
        (fun _ => .completes) {}).1.length = 3) ∧
    ((SafeEngine.matchAlbumBatch
        { failures := 0, lastFailure := 0, state := .closed } 0
        [{ artist := some ("a1").data, itemTitle := some ("t1").data,
           format := some ("CD").data },
         { artist := some ("a2").data, itemTitle := some ("t2").data,
           format := some ("CD").data },
         { artist := some ("a3").data, itemTitle := some ("t3").data,
           format := some ("CD").data }]
        (fun p => if p.artist = some ("a2").data then .error ("kaboom").data
          else .ok [{ id := 1, title := ("t1").data, artists_sort := ("a1").data }])
        (fun _ => .completes) {}).1.get? 1 =
      some (.failure
        { type := .runtime_error
          message := ("Failed to process: ").data ++ ("kaboom").data
          fallback := some (SafeEngine.noMatchFallback
            (SafeEngine.echoQuery
              { artist := some ("a2").data, itemTitle := some ("t2").data,
                format := some ("CD").data })) })) ∧
    ((SafeEngine.matchAlbumSafe
        { failures := 0, lastFailure := 0, state := .closed } 0
        { artist := some ("a1").data, itemTitle := some ("t1").data,
          format := some ("CD").data }
        [] {} (.throwsErr ("boom").data)).1 =
      .failure
        { type := .runtime_error
          message := ("boom").data
          fallback := some (SafeEngine.noMatchFallback
            (SafeEngine.echoQuery
              { artist := some ("a1").data, itemTitle := some ("t1").data,
                format := some ("CD").data })) }) ∧
    (SafeEngine.matchAlbumBatch
        { failures := 0, lastFailure := 0, state := .closed } 0
        [{ artist := some ("a1").data, itemTitle := some ("t1").data,
           format := some ("CD").data },
         { artist := some ("a2").data, itemTitle := some ("t2").data,
           format := some ("CD").data },
         { artist := some ("a3").data, itemTitle := some ("t3").data,
           format := some ("CD").data }]
        (fun p => if p.artist = some ("a2").data then .error ("kaboom").data
          else .ok [{ id := 1, title := ("t1").data, artists_sort := ("a1").data }])
        (fun _ => .completes) {} =
      ([{ artist := some ("a1").data, itemTitle := some ("t1").data,
          format := some ("CD").data },
        { artist := some ("a2").data, itemTitle := some ("t2").data,
          format := some ("CD").data },
        { artist := some ("a3").data, itemTitle := some ("t3").data,
          format := some ("CD").data }].map
        (batchItemSpec
          (fun p => if p.artist = some ("a2").data then .error ("kaboom").data
            else .ok
              [{ id := 1, title := ("t1").data, artists_sort := ("a1").data }])
          {}),
       { failures := 0, lastFailure := 0, state := .closed })) := by
  have h := c9_batch_amended
    { failures := 0, lastFailure := 0, state := .closed } 0
    [{ artist := some ("a1").data, itemTitle := some ("t1").data,
       format := some ("CD").data },
     { artist := some ("a2").data, itemTitle := some ("t2").data,
       format := some ("CD").data },
     { artist := some ("a3").data, itemTitle := some ("t3").data,
       format := some ("CD").data }]
    (fun p => if p.artist = some ("a2").data then .error ("kaboom").data
      else .ok [{ id := 1, title := ("t1").data, artists_sort := ("a1").data }])
    (fun _ => .completes) {}
  refine ⟨h.1, ?_, ?_, ?_⟩
  · exact h.2.1 1
      { artist := some ("a2").data, itemTitle := some ("t2").data,
        format := some ("CD").data } (("kaboom").data) rfl rfl
  · exact h.2.2.1
      { artist := some ("a1").data, itemTitle := some ("t1").data,
        format := some ("CD").data } [] (("boom").data) rfl (by decide) (by decide)
  · exact h.2.2.2 rfl (by decide) (by decide) (fun _ _ => rfl)

end BCDC
